import Mathlib

/-!
# Verification of the Solidity IR generator for statements

A shallow embedding of `libsolidity/codegen/ir/IRGeneratorForStatements.cpp`:
the statement/expression lowering stage that translates a type-checked
Solidity AST into Yul IR.  The emitted Yul text stream (`m_code`) is modelled
as a structured list of Yul statements; the generator state (fresh-name
counter, the single active lvalue, the append-only output buffer) is threaded
explicitly.  Fallible code (solAssert / solUnimplementedAssert) is modelled
with `Except`.  Recursive tree walks take an explicit fuel argument so that
every definition is structurally recursive and kernel-computable; fuel
exhaustion is a distinguished error that never occurs on adequately fueled
runs (all theorems assume a successful, i.e. fuel-sufficient, run).
-/

namespace IRGen

/-! ## Type model

Models the slice of the `Type` hierarchy (`libsolidity/ast/Types.h`, a
collaborator of the file under verification) that the lowered constructs
need: value types, the rational-literal type, a dynamic memory reference
type, and tuple types. -/

inductive SolType
  | boolTy
  /-- integer type; `signed` mirrors `IntegerType::isSigned()`. -/
  | intTy (signed : Bool)
  | addressTy
  /-- `FixedBytesType` of `n` bytes; `fixedBytes 1` is `TypeProvider::byte()`. -/
  | fixedBytes (n : Nat)
  /-- `RationalNumberType` with the literal value it denotes. -/
  | rationalTy (value : Nat)
  /-- dynamically encoded reference type living in memory (`bytes memory`). -/
  | bytesMemory
  /-- `TupleType`; `tupleTy []` is `TypeProvider::emptyTuple()`. -/
  | tupleTy (components : List SolType)

mutual
/-- Boolean equality on types, mirroring `Type::operator==` usage. -/
def tyEq : SolType → SolType → Bool
  | .boolTy, .boolTy => true
  | .intTy a, .intTy b => a == b
  | .addressTy, .addressTy => true
  | .fixedBytes a, .fixedBytes b => a == b
  | .rationalTy a, .rationalTy b => a == b
  | .bytesMemory, .bytesMemory => true
  | .tupleTy a, .tupleTy b => tyEqList a b
  | _, _ => false
def tyEqList : List SolType → List SolType → Bool
  | [], [] => true
  | a :: as_, b :: bs => tyEq a b && tyEqList as_ bs
  | _, _ => false
end

/-- `TypeProvider::emptyTuple()`. -/
def emptyTuple : SolType := .tupleTy []

mutual
/-- `Type::sizeOnStack()`: number of stack slots a value of this type occupies. -/
def sizeOnStack : SolType → Nat
  | .boolTy => 1
  | .intTy _ => 1
  | .addressTy => 1
  | .fixedBytes _ => 1
  | .rationalTy _ => 1
  | .bytesMemory => 1
  | .tupleTy ts => sizeOnStackList ts
def sizeOnStackList : List SolType → Nat
  | [] => 0
  | t :: ts => sizeOnStack t + sizeOnStackList ts
end

/-- `Type::isValueType()`. -/
def isValueType : SolType → Bool
  | .boolTy => true
  | .intTy _ => true
  | .addressTy => true
  | .fixedBytes _ => true
  | .rationalTy _ => true
  | .bytesMemory => false
  | .tupleTy _ => false

/-- `Type::isDynamicallyEncoded()` for the modelled types. -/
def isDynamicallyEncoded : SolType → Bool
  | .bytesMemory => true
  | _ => false

/-- `Type::calldataEncodedSize()`: head size of the ABI encoding (all
modelled non-dynamic types are single padded words). -/
def calldataEncodedSize : SolType → Nat
  | _ => 32

/-- `Type::decodingType()` (a null result means the type cannot be decoded;
the modelled types decode as themselves). -/
def decodingType : SolType → Option SolType
  | t => some t

/-- Short stable name of a type, used to derive the names of the helper
routines produced by the `YulUtilFunctions` collaborator. -/
def tyName : SolType → String
  | .boolTy => "bool"
  | .intTy true => "int256"
  | .intTy false => "uint256"
  | .addressTy => "address"
  | .fixedBytes n => "bytes" ++ Nat.repr n
  | .rationalTy v => "rational_" ++ Nat.repr v
  | .bytesMemory => "bytes_memory"
  | .tupleTy ts => "tuple" ++ Nat.repr ts.length

/-- Modelled from the spec: the type-conversion collaborator's
`Type::closestTemporaryType(Type const*)` (declared in
`libsolidity/ast/Types.h`, not part of the lowered source).  The spec calls
it "the common (closest temporary) type shared with the left-hand side";
for the value types handled here it resolves to the left-hand side's type. -/
def closestTemporaryType (_rhsType lhsType : SolType) : SolType := lhsType

/-! ## Yul output model

`m_code` is an append-only stream of Yul text in the C++; here it is a list
of structured Yul statements, so that block structure ("the right operand's
code is emitted only inside a conditional") is directly observable. -/

inductive YulExpr
  | lit (v : Nat)
  | yident (name : String)
  | call (fn : String) (args : List YulExpr)

inductive YulStmt
  /-- `let n1, n2, ... := rhs` -/
  | letVar (names : List String) (rhs : YulExpr)
  /-- `let n1, n2, ...` (declaration without value) -/
  | letDecl (names : List String)
  /-- `n1, n2, ... := rhs` -/
  | assignVar (names : List String) (rhs : YulExpr)
  /-- a bare expression evaluated for its effect -/
  | exprStmt (e : YulExpr)
  | ifStmt (cond : YulExpr) (body : List YulStmt)
  | forLoop (pre : List YulStmt) (cond : YulExpr) (post : List YulStmt)
      (body : List YulStmt)
  | breakStmt
  | continueStmt
  | leaveStmt

/-! ## IR variables (`IRVariable`)

An `IRVariable` binds a base name and a type; a value of tuple type spans
one named Yul identifier per stack slot.  `slotNames` models
`IRVariable::stackItems()` flattened to `commaSeparatedList()`. -/

structure IRVar where
  name : String
  ty : SolType

/-- Name of the `i`-th tuple component of a multi-part variable, as produced
by `IRVariable::tupleComponent`. -/
def componentName (base : String) (i : Nat) : String :=
  base ++ "_c" ++ Nat.repr i

mutual
/-- The Yul identifiers occupied by a value named `base` of the given type
(`IRVariable::stackItems` flattened; `commaSeparatedList`). -/
def slotNamesOf (base : String) : SolType → List String
  | .boolTy => [base]
  | .intTy _ => [base]
  | .addressTy => [base]
  | .fixedBytes _ => [base]
  | .rationalTy _ => [base]
  | .bytesMemory => [base ++ "_mpos"]
  | .tupleTy ts => slotNamesOfList base 0 ts
def slotNamesOfList (base : String) (i : Nat) : List SolType → List String
  | [] => []
  | t :: ts => slotNamesOf (componentName base i) t ++ slotNamesOfList base (i + 1) ts
end

def slotNames (v : IRVar) : List String := slotNamesOf v.name v.ty

/-- The variable's slots as Yul call arguments. -/
def slotArgs (v : IRVar) : List YulExpr := (slotNames v).map .yident

/-- `IRVariable::tupleComponent(i)`. -/
def IRVar.tupleComponent (v : IRVar) (i : Nat) : IRVar :=
  match v.ty with
  | .tupleTy ts => ⟨componentName v.name i, ts.getD i (.tupleTy [])⟩
  | _ => v

/-- `IRVariable::part(name)`: a named single-slot sub-component (`"gas"`,
`"value"`, `"functionIdentifier"`, ... — all word-sized). -/
def IRVar.part (v : IRVar) (s : String) : IRVar :=
  ⟨v.name ++ "_" ++ s, .intTy false⟩

/-- A value occupying exactly one slot as a Yul expression (how a
single-slot `commaSeparatedList()` is spliced into emitted text); a
multi-slot value is kept grouped (it only ever appears in argument
position in the source). -/
def singleExprOf (v : IRVar) : YulExpr :=
  match slotNames v with
  | [n] => .yident n
  | ns => .call "values" (ns.map .yident)

/-! ## Lvalue model (`IRLValue`) and generator state -/

/-- The slot-internal offset of a storage lvalue: a statically known
bit-offset or the name of a Yul variable holding it (`std::variant<unsigned,
std::string>`). -/
inductive StorageOffset
  | staticOff (n : Nat)
  | dynamicOff (varName : String)

/-- `IRLValue`: a description of an assignable location. -/
inductive IRLValue
  | stackLV (ty : SolType) (stackVar : IRVar)
  | storageLV (ty : SolType) (slot : String) (off : StorageOffset)
  | memoryLV (ty : SolType) (address : String) (byteArrayElement : Bool)
  | tupleLV (ty : SolType) (components : List (Option IRLValue))

def IRLValue.type : IRLValue → SolType
  | .stackLV t _ => t
  | .storageLV t _ _ => t
  | .memoryLV t _ _ => t
  | .tupleLV t _ => t

/-- The EVM-version collaborator (`langutil::EVMVersion`), specified at its
interface: the capability predicates the lowering consults. -/
structure EVMVersion where
  hasStaticCall : Bool
  canOverchargeGasForCall : Bool
  supportsReturndata : Bool
  /-- whether the Tangerine Whistle gas schedule applies (selects the base
  call cost in the `GasMeter` collaborator). -/
  tangerineWhistle : Bool

/-- Failure classes of the lowering stage. -/
inductive GenError
  /-- `solAssert`: internal invariant violation, fatal. -/
  | invariantViolation (msg : String)
  /-- `solUnimplementedAssert` / `solUnimplemented`: recognized but
  unsupported construct, fatal. -/
  | unimplemented (msg : String)
  /-- artifact of the fueled embedding; never arises on a sufficiently
  fueled run. -/
  | outOfFuel

/-- The generator state: fresh-name counter, the single active lvalue
(`m_currentLValue`), and the append-only output buffer (`m_code`). -/
structure GenState where
  counter : Nat
  lvalue : Option IRLValue
  code : List YulStmt
  evm : EVMVersion

/-- `m_context.newYulVariable()`. -/
def newYulVariable (s : GenState) : String × GenState :=
  ("_" ++ Nat.repr (s.counter + 1), { s with counter := s.counter + 1 })

def emit (st : YulStmt) (s : GenState) : GenState :=
  { s with code := s.code ++ [st] }

def emitAll (sts : List YulStmt) (s : GenState) : GenState :=
  { s with code := s.code ++ sts }

/-! ## Names of the helper routines obtained from `YulUtilFunctions` /
`ABIFunctions` (collaborators used purely as named-function factories). -/

def conversionFunction (src dst : SolType) : String :=
  "convert_" ++ tyName src ++ "_to_" ++ tyName dst

def incrementCheckedFunction (t : SolType) : String :=
  "increment_" ++ tyName t
def decrementCheckedFunction (t : SolType) : String :=
  "decrement_" ++ tyName t

def overflowCheckedIntAddFunction (t : SolType) : String := "checked_add_" ++ tyName t
def overflowCheckedIntSubFunction (t : SolType) : String := "checked_sub_" ++ tyName t
def overflowCheckedIntMulFunction (t : SolType) : String := "checked_mul_" ++ tyName t
def overflowCheckedIntDivFunction (t : SolType) : String := "checked_div_" ++ tyName t
def checkedIntModFunction (t : SolType) : String := "checked_mod_" ++ tyName t

def updateStorageValueFunction (t : SolType) (off : Option Nat) : String :=
  "update_storage_value_" ++
    (match off with
      | some n => "offset_" ++ Nat.repr n ++ "_"
      | none => "") ++ tyName t

def readFromStorageFunction (t : SolType) (off : Nat) : String :=
  "read_from_storage_split_offset_" ++ Nat.repr off ++ "_" ++ tyName t
def readFromStorageDynamicFunction (t : SolType) : String :=
  "read_from_storage_split_dynamic_" ++ tyName t

def writeToMemoryFunction (t : SolType) : String := "write_to_memory_" ++ tyName t
def readFromMemoryFunction (t : SolType) : String := "read_from_memory_" ++ tyName t
def cleanupFunction (t : SolType) : String := "cleanup_" ++ tyName t
def storageSetToZeroFunction (t : SolType) : String := "storage_set_to_zero_" ++ tyName t
def zeroValueFunction (t : SolType) : String := "zero_value_" ++ tyName t
def forwardingRevertFunction : String := "revert_forward_1"
def shiftLeftFunction (bits : Nat) : String := "shift_left_" ++ Nat.repr bits
def tupleEncoderFunction (argTys paramTys : List SolType) (libraryCall : Bool) : String :=
  "abi_encode_tuple_" ++ Nat.repr paramTys.length ++ Nat.repr argTys.length ++
    (if libraryCall then "_library" else "")
def tupleDecoderFunction (tys : List SolType) (fromMemory : Bool) : String :=
  "abi_decode_tuple_" ++ Nat.repr tys.length ++ (if fromMemory then "_fromMemory" else "")

/-! ## Value protocol: `define` / `declare` / `assign` / `convert` -/

/-- `IRGeneratorForStatements::declareAssign`: for identical types one
plain Yul assignment per stack slot (the source recursion over
`stackItems()` bottoms out in exactly one emitted statement per slot;
zero-width types emit nothing), otherwise a single conversion call. -/
def declareAssign (lhs rhs : IRVar) (decl : Bool) (s : GenState) : GenState :=
  if tyEq lhs.ty rhs.ty then
    emitAll
      (((slotNames lhs).zip (slotNames rhs)).map fun p =>
        if decl then .letVar [p.1] (.yident p.2) else .assignVar [p.1] (.yident p.2)) s
  else
    emit
      (if decl then
        .letVar (slotNames lhs) (.call (conversionFunction rhs.ty lhs.ty) (slotArgs rhs))
      else
        .assignVar (slotNames lhs) (.call (conversionFunction rhs.ty lhs.ty) (slotArgs rhs))) s

/-- `define(var, value)`. -/
def defineVar (v value : IRVar) (s : GenState) : GenState := declareAssign v value true s

/-- `assign(var, value)`. -/
def assignVar (v value : IRVar) (s : GenState) : GenState := declareAssign v value false s

/-- `define(var) << rhs-text << "\n"`: bind a fresh result from a Yul
expression (a bare effect statement when the type is zero-width). -/
def defineRhsStmts (v : IRVar) (rhs : YulExpr) : List YulStmt :=
  if 0 < sizeOnStack v.ty then [.letVar (slotNames v) rhs] else [.exprStmt rhs]

def defineRhs (v : IRVar) (rhs : YulExpr) (s : GenState) : GenState :=
  emitAll (defineRhsStmts v rhs) s

/-- `declare(var)`. -/
def declareVar (v : IRVar) (s : GenState) : GenState :=
  if 0 < sizeOnStack v.ty then emit (.letDecl (slotNames v)) s else s

/-- `IRGeneratorForStatements::convert`. -/
def convertVar (src : IRVar) (dst : SolType) (s : GenState) : IRVar × GenState :=
  if tyEq src.ty dst then (src, s)
  else
    let (n, s1) := newYulVariable s
    let converted : IRVar := ⟨n, dst⟩
    (converted, defineVar converted src s1)

/-- `IRGeneratorForStatements::expressionAsType`. -/
def expressionAsType (v : IRVar) (dst : SolType) : YulExpr :=
  if tyEq v.ty dst then singleExprOf v
  else .call (conversionFunction v.ty dst) (slotArgs v)

/-! ## Lvalue protocol: `readFromLValue` / `writeToLValue` / `setLValue` -/

/-- `IRGeneratorForStatements::readFromLValue`. -/
def readFromLValue (lv : IRLValue) (s : GenState) :
    Except GenError (IRVar × GenState) :=
  let (n, s0) := newYulVariable s
  let result : IRVar := ⟨n, lv.type⟩
  match lv with
  | .storageLV ty slot off =>
    if !isValueType ty then
      .ok (result, defineRhs result (.yident slot) s0)
    else
      match off with
      | .dynamicOff offName =>
        .ok (result, defineRhs result
          (.call (readFromStorageDynamicFunction ty) [.yident slot, .yident offName]) s0)
      | .staticOff offVal =>
        .ok (result, defineRhs result
          (.call (readFromStorageFunction ty offVal) [.yident slot]) s0)
  | .memoryLV ty addr byteArrayElement =>
    if byteArrayElement then
      .ok (result, defineRhs result
        (.call (cleanupFunction ty) [.call "mload" [.yident addr]]) s0)
    else if isValueType ty then
      .ok (result, defineRhs result
        (.call (readFromMemoryFunction ty) [.yident addr]) s0)
    else
      .ok (result, defineRhs result (.call "mload" [.yident addr]) s0)
  | .stackLV _ v =>
    .ok (result, defineVar result v s0)
  | .tupleLV _ _ =>
    .error (.invariantViolation "Attempted to read from tuple lvalue.")

/-- The body of the tuple case of `writeToLValue`: `for (i = 0; i <
components.size(); ++i) { idx = components.size() - i - 1; if
(components[idx]) writeToLValue(*components[idx], value.tupleComponent(idx));
}`.  The recursive call is passed in as `wr` so that the iteration stays
structurally recursive on the index list (instantiated with
`List.range components.length`). -/
def writeTupleAux (wr : IRLValue → IRVar → GenState → Except GenError GenState)
    (components : List (Option IRLValue)) (value : IRVar) :
    Nat → GenState → Except GenError GenState
  | 0, s => .ok s
  | idx + 1, s =>
    match components.getD idx none with
    | some lv => do
      let s1 ← wr lv (value.tupleComponent idx) s
      writeTupleAux wr components value idx s1
    | none => writeTupleAux wr components value idx s

mutual
/-- Nesting depth of an lvalue; used as the (always sufficient) fuel for
`writeToLValue`'s recursion through tuple lvalues. -/
def lvDepth : IRLValue → Nat
  | .stackLV _ _ => 1
  | .storageLV _ _ _ => 1
  | .memoryLV _ _ _ => 1
  | .tupleLV _ comps => lvDepthList comps + 1
def lvDepthList : List (Option IRLValue) → Nat
  | [] => 0
  | none :: rest => lvDepthList rest
  | some lv :: rest => max (lvDepth lv) (lvDepthList rest)
end

/-- `IRGeneratorForStatements::writeToLValue` (fueled for the recursion
through tuple lvalues; `lvDepth` fuel always suffices). -/
def writeToLValue : Nat → IRLValue → IRVar → GenState → Except GenError GenState
  | 0, _, _, _ => .error .outOfFuel
  | fuel + 1, lv, value, s =>
    match lv with
    | .storageLV ty slot off =>
      let staticPart : Option Nat :=
        match off with
        | .staticOff n => some n
        | .dynamicOff _ => none
      let offArgs : List YulExpr :=
        match off with
        | .staticOff _ => []
        | .dynamicOff offName => [.yident offName]
      .ok (emit (.exprStmt (.call (updateStorageValueFunction ty staticPart)
        ([.yident slot] ++ offArgs ++ slotArgs value))) s)
    | .memoryLV ty addr byteArrayElement =>
      if isValueType ty then
        let (n, s0) := newYulVariable s
        let prepared : IRVar := ⟨n, ty⟩
        let s1 := defineVar prepared value s0
        if byteArrayElement then
          if tyEq ty (.fixedBytes 1) then
            .ok (emit (.exprStmt (.call "mstore8"
              [.yident addr, .call "byte" ([.lit 0] ++ slotArgs prepared)])) s1)
          else .error (.invariantViolation "")
        else
          .ok (emit (.exprStmt (.call (writeToMemoryFunction ty)
            ([.yident addr] ++ slotArgs prepared))) s1)
      else
        if sizeOnStack ty == 1 && tyEq value.ty .bytesMemory then
          .ok (emit (.exprStmt (.call "mstore" [.yident addr, .yident value.name])) s)
        else .error (.invariantViolation "")
    | .stackLV _ v => .ok (assignVar v value s)
    | .tupleLV _ components =>
      -- `for (i = 0; i < n; ++i) { idx = n - i - 1; ... }`: the iterations
      -- run through idx = n-1, n-2, ..., 0.
      writeTupleAux (writeToLValue fuel) components value components.length s

/-- `IRGeneratorForStatements::setLValue`: establish the single active
lvalue (precondition: none active), or immediately dereference when the
context does not require an assignable target.  `exprV` is the `IRVariable`
of the establishing expression; `lValueRequested` its annotation. -/
def setLValue (exprV : IRVar) (lValueRequested : Bool) (lv : IRLValue)
    (s : GenState) : Except GenError GenState :=
  if s.lvalue.isSome then .error (.invariantViolation "")
  else if lValueRequested then
    .ok { s with lvalue := some lv }
  else do
    let (r, s1) ← readFromLValue lv s
    .ok (defineVar (exprV) r s1)

/-! ## `binaryOperation`: arithmetic over checked helpers -/

inductive BinOp
  | andOp | orOp
  | eqOp | neOp | ltOp | gtOp | leOp | geOp
  | addOp | subOp | mulOp | divOp | modOp

/-- `dynamic_cast<IntegerType const*>(commonType)` followed by
`isSigned()`: integer signedness, false for every other type. -/
def isSignedNumberType : SolType → Bool
  | .intTy sgn => sgn
  | _ => false

/-- `TokenTraits::isCompareOp`. -/
def isCompareOp : BinOp → Bool
  | .eqOp | .neOp | .ltOp | .gtOp | .leOp | .geOp => true
  | _ => false

/-- `IRGeneratorForStatements::binaryOperation`: integer arithmetic routes
through the overflow-checked helpers; anything else is unimplemented. -/
def binaryOperation (op : BinOp) (t : SolType) (left right : YulExpr) :
    Except GenError YulExpr :=
  match t with
  | .intTy sgn =>
    match op with
    | .addOp => .ok (.call (overflowCheckedIntAddFunction (.intTy sgn)) [left, right])
    | .subOp => .ok (.call (overflowCheckedIntSubFunction (.intTy sgn)) [left, right])
    | .mulOp => .ok (.call (overflowCheckedIntMulFunction (.intTy sgn)) [left, right])
    | .divOp => .ok (.call (overflowCheckedIntDivFunction (.intTy sgn)) [left, right])
    | .modOp => .ok (.call (checkedIntModFunction (.intTy sgn)) [left, right])
    | _ => .error (.unimplemented "")
  | _ => .error (.unimplemented "")

/-! ## Assertion helpers (`solAssert` / `solUnimplementedAssert`) -/

def solAssertB (b : Bool) (msg : String) : Except GenError Unit :=
  if b then .ok () else .error (.invariantViolation msg)

def solUnimplementedAssertB (b : Bool) (msg : String) : Except GenError Unit :=
  if b then .ok () else .error (.unimplemented msg)

/-! ## External / low-level call encoding (`appendExternalFunctionCall`) -/

/-- `FunctionType::Kind` restricted to the kinds that `endVisit(FunctionCall)`
routes to `appendExternalFunctionCall`. -/
inductive CallKind
  | externalCall | delegateCall | bareCall | bareDelegateCall | bareStaticCall
  | bareCallCode

def ckEq : CallKind → CallKind → Bool
  | .externalCall, .externalCall => true
  | .delegateCall, .delegateCall => true
  | .bareCall, .bareCall => true
  | .bareDelegateCall, .bareDelegateCall => true
  | .bareStaticCall, .bareStaticCall => true
  | .bareCallCode, .bareCallCode => true
  | _, _ => false

instance instCallKindBEq : BEq CallKind := ⟨ckEq⟩

/-- `FunctionType::isBareCall()`. -/
def isBareCallKind : CallKind → Bool
  | .bareCall | .bareDelegateCall | .bareStaticCall | .bareCallCode => true
  | _ => false

/-- `StateMutability` (pure < view < nonpayable < payable). -/
inductive StateMutability
  | pureM | viewM | nonpayableM | payableM

/-- `stateMutability <= StateMutability::View`. -/
def mutabilityAtMostView : StateMutability → Bool
  | .pureM | .viewM => true
  | _ => false

/-- The interface of the callee's `FunctionType` consulted by
`appendExternalFunctionCall` (the `FunctionType` class itself is a
collaborator from `libsolidity/ast`). -/
structure ExtCallInfo where
  kind : CallKind
  mutability : StateMutability
  gasSet : Bool
  valueSet : Bool
  bound : Bool
  takesArbitraryParameters : Bool
  padArguments : Bool
  parameterTypes : List SolType
  returnParameterTypes : List SolType

/-- `FunctionType::returnParameterTypesWithoutDynamicTypes()`: the declared
return types with dynamically encoded ones dropped (used on targets without
`RETURNDATACOPY`). -/
def returnParameterTypesWithoutDynamicTypes (info : ExtCallInfo) : List SolType :=
  info.returnParameterTypes.filter (fun t => !isDynamicallyEncoded t)

/-- Constants of the `evmasm::GasCosts` collaborator (`libevmasm/GasMeter.h`):
base call cost by schedule, value-transfer surcharge, new-account surcharge. -/
def callGas (evm : EVMVersion) : Nat := if evm.tangerineWhistle then 700 else 40

def callValueTransferGas : Nat := 9000

def callNewAccountGas : Nat := 25000

/-- The loop computing `retSize` / `dynamicReturnSize` over the return
types: sizes accumulate until a dynamically encoded type resets the size to
zero and stops the scan. -/
def computeRetSizeAux : List SolType → Nat → Nat × Bool
  | [], acc => (acc, false)
  | t :: ts, acc =>
    if isDynamicallyEncoded t then (0, true)
    else
      match decodingType t with
      | some dt => computeRetSizeAux ts (acc + calldataEncodedSize dt)
      | none => computeRetSizeAux ts (acc + calldataEncodedSize t)

/-- `mload(<freeMemoryPointer>)` (`fetchFreeMem`; the free memory pointer
lives at byte 64, `CompilerUtils::freeMemoryPointer`). -/
def fetchFreeMem : YulExpr := .call "mload" [.lit 64]

/-- The filled Whiskers template of `appendExternalFunctionCall`: one field
per `templ(...)` parameter. -/
structure CallTemplate where
  checkExistence : Bool
  posVar : String
  endVar : String
  resultVar : String
  freeMem : YulExpr
  shl28Fn : String
  funIdName : String
  encodeArgsFn : String
  argumentNames : List String
  retSize : Nat
  valueExpr : YulExpr
  gasExpr : YulExpr
  callFn : String
  forwardingRevertFn : String
  dynamicReturnSize : Bool
  returnSizeExpr : YulExpr
  abiDecodeFn : String
  returnsFlag : Bool
  retVarNames : List String

/-- `IRGeneratorForStatements::appendExternalFunctionCall`, faithful to the
source order of asserts, emissions and template-parameter computation.
`calleeVar` is `IRVariable(_functionCall.expression())`, `resultVar` is
`IRVariable(_functionCall)`, `argVars` are the already-lowered argument
variables with their types. -/
def appendExternalFunctionCall (info : ExtCallInfo) (calleeVar resultVar : IRVar)
    (argVars : List IRVar) (s : GenState) :
    Except GenError (CallTemplate × GenState) := do
  solAssertB (info.takesArbitraryParameters ||
    argVars.length == info.parameterTypes.length) ""
  solUnimplementedAssertB (!info.bound) ""
  let funKind := info.kind
  solAssertB (!(funKind == .bareStaticCall) || s.evm.hasStaticCall) ""
  solAssertB (!(funKind == .bareCallCode)) "Callcode has been removed."
  let returnSuccessConditionAndReturndata :=
    funKind == .bareCall || funKind == .bareDelegateCall || funKind == .bareStaticCall
  let isDelegateCall := funKind == .bareDelegateCall || funKind == .delegateCall
  let useStaticCall := funKind == .bareStaticCall ||
    (mutabilityAtMostView info.mutability && s.evm.hasStaticCall)
  let haveReturndatacopy := s.evm.supportsReturndata
  let returnTypes : List SolType :=
    if returnSuccessConditionAndReturndata then []
    else if haveReturndatacopy then info.returnParameterTypes
    else returnParameterTypesWithoutDynamicTypes info
  let retPair := if returnSuccessConditionAndReturndata then (0, false)
    else computeRetSizeAux returnTypes 0
  let retSize := retPair.1
  let dynamicReturnSize := retPair.2
  solAssertB (!dynamicReturnSize || haveReturndatacopy) ""
  let argumentNames := (argVars.map slotNames).flatten
  -- Touch the end of the output area so memory-resize costs are prepaid
  -- when the gas computation must subtract fixed overheads.
  let s ←
    if !s.evm.canOverchargeGasForCall && !info.gasSet && 0 < retSize then
      pure (emit (.exprStmt (.call "mstore"
        [.call "add" [fetchFreeMem, .lit retSize], .lit 0])) s)
    else pure s
  solUnimplementedAssertB (!isBareCallKind funKind) ""
  let (posV, s) := newYulVariable s
  let (endV, s) := newYulVariable s
  let (resultV, s) := newYulVariable s
  let encodeInPlace := info.takesArbitraryParameters || isBareCallKind funKind
  let encodeForLibraryCall := funKind == .delegateCall
  solUnimplementedAssertB (!encodeInPlace) ""
  solUnimplementedAssertB (!info.padArguments) ""
  let argumentTypes := argVars.map (·.ty)
  let valueExpr : YulExpr ←
    if isDelegateCall then do
      solAssertB (!info.valueSet) "Value set for delegatecall"
      pure (.lit 0)
    else if useStaticCall then do
      solAssertB (!info.valueSet) "Value set for staticcall"
      pure (.lit 0)
    else if info.valueSet then
      pure (.yident (calleeVar.part "value").name)
    else pure (.lit 0)
  let checkExistence := funKind == .externalCall || funKind == .delegateCall
  let gasExpr : YulExpr :=
    if info.gasSet then .yident (calleeVar.part "gas").name
    else if s.evm.canOverchargeGasForCall then
      -- Send all gas (requires Tangerine Whistle EVM).
      .call "gas" []
    else
      -- Send all gas except a conservative margin for fixed overheads.
      .call "sub" [.call "gas" [],
        .lit (callGas s.evm + 10 +
          (if info.valueSet then callValueTransferGas else 0) +
          (if !checkExistence then callNewAccountGas else 0))]
  -- Order matters: STATICCALL might overlap with DELEGATECALL.
  let callFn : String :=
    if isDelegateCall then "delegatecall"
    else if useStaticCall then "staticcall"
    else "call"
  solUnimplementedAssertB (!returnSuccessConditionAndReturndata) ""
  let returnSizeExpr : YulExpr :=
    if haveReturndatacopy then .call "returndatasize" [] else .lit retSize
  .ok ({ checkExistence := checkExistence
         posVar := posV
         endVar := endV
         resultVar := resultV
         freeMem := fetchFreeMem
         shl28Fn := shiftLeftFunction (8 * (32 - 4))
         funIdName := (calleeVar.part "functionIdentifier").name
         encodeArgsFn := tupleEncoderFunction argumentTypes info.parameterTypes
           encodeForLibraryCall
         argumentNames := argumentNames
         retSize := retSize
         valueExpr := valueExpr
         gasExpr := gasExpr
         callFn := callFn
         forwardingRevertFn := forwardingRevertFunction
         dynamicReturnSize := dynamicReturnSize
         returnSizeExpr := returnSizeExpr
         abiDecodeFn := tupleDecoderFunction returnTypes true
         returnsFlag := !returnTypes.isEmpty
         retVarNames := slotNames resultVar }, s)

/-! ## The Solidity-side AST

The slice of the typed AST the verified claims exercise.  Every node
carries the node id (from which its `IRVariable` name derives) and its
annotated type. -/

/-- The referenced declaration kind of an `Identifier`
(`endVisit(Identifier)`): a context local or a state variable with its
assigned storage slot and intra-slot byte offset. -/
inductive IdentKind
  | localVar
  | stateVar (slot : Nat) (offsetVal : Nat)

inductive Expr
  | litE (eid : Nat) (ety : SolType) (v : Nat)
  | identE (eid : Nat) (ety : SolType) (nm : String) (kind : IdentKind)
  /-- `Assignment`; `compoundOp = some op` models a compound assignment
  token whose `TokenTraits::AssignmentToBinaryOp` is `op`. -/
  | assignE (eid : Nat) (ety : SolType) (compoundOp : Option BinOp) (lhs rhs : Expr)
  | binOpE (eid : Nat) (ety : SolType) (commonType : SolType) (op : BinOp) (l r : Expr)
  /-- `UnaryOperation` restricted to `++`/`--`. -/
  | incDecE (eid : Nat) (ety : SolType) (isInc : Bool) (isPre : Bool) (sub : Expr)
  | tupleE (eid : Nat) (ety : SolType) (comps : List (Option Expr))
  | extCallE (eid : Nat) (ety : SolType) (callee : Expr) (info : ExtCallInfo)
      (args : List Expr)

def idOf : Expr → Nat
  | .litE i _ _ => i
  | .identE i _ _ _ => i
  | .assignE i _ _ _ _ => i
  | .binOpE i _ _ _ _ _ => i
  | .incDecE i _ _ _ _ => i
  | .tupleE i _ _ => i
  | .extCallE i _ _ _ _ => i

def tyOf : Expr → SolType
  | .litE _ t _ => t
  | .identE _ t _ _ => t
  | .assignE _ t _ _ _ => t
  | .binOpE _ t _ _ _ _ => t
  | .incDecE _ t _ _ _ => t
  | .tupleE _ t _ => t
  | .extCallE _ t _ _ _ => t

/-- `IRVariable(expr)`: the variable holding an expression's value. -/
def exprVar (e : Expr) : IRVar := ⟨"expr_" ++ Nat.repr (idOf e), tyOf e⟩

/-- `m_context.localVariable(decl)`: the Yul name of a context local. -/
def localVarName (n : String) : String := "vloc_" ++ n

/-- `util::toCompactHexWithPrefix`. -/
def toCompactHexWithPrefix (n : Nat) : String :=
  "0x" ++ String.mk (Nat.toDigits 16 n)

def bopEq : BinOp → BinOp → Bool
  | .andOp, .andOp | .orOp, .orOp | .eqOp, .eqOp | .neOp, .neOp => true
  | .ltOp, .ltOp | .gtOp, .gtOp | .leOp, .leOp | .geOp, .geOp => true
  | .addOp, .addOp | .subOp, .subOp | .mulOp, .mulOp => true
  | .divOp, .divOp | .modOp, .modOp => true
  | _, _ => false

instance instBinOpBEq : BEq BinOp := ⟨bopEq⟩

/-! ## The lowering engine

`lowerExprStep low` is the body of one visitor dispatch, with every
recursive descent routed through the callback `low`; `lowerExpr (fuel+1) =
lowerExprStep (lowerExpr fuel)`.  Theorems about a single node's lowering
quantify over `low`, so they hold at every fuel. -/

/-- Run a sub-lowering into a fresh block: the C++ streams sub-code between
brace tokens; here the sub-run's emissions are captured as a statement
list and the outer buffer is restored. -/
def captured (run : GenState → Except GenError GenState) (s : GenState) :
    Except GenError (List YulStmt × GenState) := do
  let s1 ← run { s with code := [] }
  .ok (s1.code, { s1 with code := s.code })

/-- The comparison-primitive selection of `visit(BinaryOperation)`:
signedness picks `slt`/`sgt` vs `lt`/`gt`; `>=`/`<=` are the `iszero` of the
strict opposite. -/
def comparisonExpr (op : BinOp) (isSigned : Bool) (lArg rArg : YulExpr) :
    Except GenError YulExpr :=
  if op == .eqOp then .ok (.call "eq" [lArg, rArg])
  else if op == .neOp then .ok (.call "iszero" [.call "eq" [lArg, rArg]])
  else if op == .geOp then
    .ok (.call "iszero" [.call (if isSigned then "slt" else "lt") [lArg, rArg]])
  else if op == .leOp then
    .ok (.call "iszero" [.call (if isSigned then "sgt" else "gt") [lArg, rArg]])
  else if op == .gtOp then .ok (.call (if isSigned then "sgt" else "gt") [lArg, rArg])
  else if op == .ltOp then .ok (.call (if isSigned then "slt" else "lt") [lArg, rArg])
  else .error (.invariantViolation "Unknown comparison operator.")

/-- `IRGeneratorForStatements::appendAndOrOperatorCode`: lower the left
operand, bind it as the result, and emit the right operand's lowering
inside a conditional on the left value (inverted for `||`). -/
def appendAndOrOperatorCode
    (low : Expr → Bool → GenState → Except GenError GenState)
    (e l r : Expr) (op : BinOp) (s : GenState) : Except GenError GenState := do
  solAssertB (op == .orOp || op == .andOp) ""
  let s1 ← low l false s
  let value := exprVar e
  let s2 := defineVar value (exprVar l) s1
  let (rightCode, s3) ← captured
    (fun st => do
      let st1 ← low r false st
      .ok (assignVar value (exprVar r) st1)) s2
  let cond : YulExpr :=
    if op == .orOp then .call "iszero" [.yident value.name] else .yident value.name
  .ok (emit (.ifStmt cond rightCode) s3)

/-- The iteration of `visit(TupleExpression)` over the tuple's components:
every present component is lowered (collecting its lvalue when one is
requested, else binding the tuple component's value), every hole contributes
an empty lvalue slot when lvalues are collected. -/
def lowerTupleComps (low : Expr → Bool → GenState → Except GenError GenState)
    (tupleVar : IRVar) (req : Bool) :
    List (Option Expr) → Nat → GenState → List (Option IRLValue) →
    Except GenError (GenState × List (Option IRLValue))
  | [], _, s, acc => .ok (s, acc)
  | some c :: rest, i, s, acc => do
    let s1 ← low c req s
    if req then do
      solAssertB s1.lvalue.isSome ""
      lowerTupleComps low tupleVar req rest (i + 1) { s1 with lvalue := none }
        (acc ++ [s1.lvalue])
    else
      lowerTupleComps low tupleVar req rest (i + 1)
        (defineVar (tupleVar.tupleComponent i) (exprVar c) s1) acc
  | none :: rest, i, s, acc =>
    if req then lowerTupleComps low tupleVar req rest (i + 1) s (acc ++ [none])
    else lowerTupleComps low tupleVar req rest (i + 1) s acc

/-- Sequential lowering of call arguments (visitor descent before
`endVisit(FunctionCall)`). -/
def lowerArgsAux (low : Expr → Bool → GenState → Except GenError GenState) :
    List Expr → GenState → Except GenError GenState
  | [], s => .ok s
  | a :: rest, s => do
    let s1 ← low a false s
    lowerArgsAux low rest s1

/-- One visitor dispatch of the expression walker with recursive descents
routed through `low`.  `req` is the node's `annotation().lValueRequested`. -/
def lowerExprStep (low : Expr → Bool → GenState → Except GenError GenState)
    (e : Expr) (req : Bool) (s : GenState) : Except GenError GenState :=
  match e with
  | .litE _ ty v =>
    -- visit(Literal): rational / bool / address literals emit their value;
    -- string literals are realized during conversion; others unimplemented.
    match ty with
    | .rationalTy _ => .ok (defineRhs (exprVar e) (.lit v) s)
    | .boolTy => .ok (defineRhs (exprVar e) (.lit v) s)
    | .addressTy => .ok (defineRhs (exprVar e) (.lit v) s)
    | _ => .error (.unimplemented
        "Only integer, boolean and string literals implemented for now.")
  | .identE _ ty nm kind =>
    -- endVisit(Identifier), variable-declaration case.
    match kind with
    | .localVar =>
      setLValue (exprVar e) req (.stackLV ty ⟨localVarName nm, ty⟩) s
    | .stateVar slot offsetVal =>
      setLValue (exprVar e) req
        (.storageLV ty (toCompactHexWithPrefix slot) (.staticOff offsetVal)) s
  | .assignE _ ty compoundOp lhs rhs => do
    -- visit(Assignment): rhs first, convert, then lhs as lvalue.
    let s1 ← low rhs false s
    let intermediateType := closestTemporaryType (tyOf rhs) (tyOf lhs)
    let (value, s2) := convertVar (exprVar rhs) intermediateType s1
    let s3 ← low lhs true s2
    match s3.lvalue with
    | none => .error (.invariantViolation "LValue not retrieved.")
    | some lv => do
      let s4 ←
        match compoundOp with
        | some bop => do
          solAssertB (tyEq (tyOf lhs) intermediateType) ""
          solAssertB (isValueType intermediateType)
            "Compound operators only available for value types."
          let (leftIntermediate, s4a) ← readFromLValue lv s3
          let binE ← binaryOperation bop intermediateType
            (.yident leftIntermediate.name) (.yident value.name)
          pure (emit (.assignVar [value.name] binE) s4a)
        | none => pure s3
      let s5 ← writeToLValue (lvDepth lv) lv value s4
      let s6 := { s5 with lvalue := none }
      if tyEq ty emptyTuple then .ok s6
      else .ok (defineVar (exprVar e) value s6)
  | .binOpE _ _ commonType op l r =>
    if op == .andOp || op == .orOp then
      -- This can short-circuit!
      appendAndOrOperatorCode low e l r op s
    else do
      let s1 ← low l false s
      let s2 ← low r false s1
      match commonType with
      | .rationalTy v => .ok (defineRhs (exprVar e) (.lit v) s2)
      | _ =>
        if isCompareOp op then do
          solAssertB (isValueType commonType) ""
          let isSigned := isSignedNumberType commonType
          let lArg := expressionAsType (exprVar l) commonType
          let rArg := expressionAsType (exprVar r) commonType
          let cmp ← comparisonExpr op isSigned lArg rArg
          .ok (defineRhs (exprVar e) cmp s2)
        else do
          let left := expressionAsType (exprVar l) commonType
          let right := expressionAsType (exprVar r) commonType
          let binE ← binaryOperation op commonType left right
          .ok (defineRhs (exprVar e) binE s2)
  | .incDecE _ ty isInc isPre sub => do
    -- endVisit(UnaryOperation), integer ++/--.
    let s1 ← low sub true s
    match ty with
    | .intTy _ => do
      solAssertB (tyEq ty (tyOf sub)) "Result type doesn't match!"
      match s1.lvalue with
      | none => .error (.invariantViolation "LValue not retrieved.")
      | some lv => do
        let (n, s2) := newYulVariable s1
        let modifiedValue : IRVar := ⟨n, ty⟩
        let (originalValue, s3) ← readFromLValue lv s2
        let s4 := defineRhs modifiedValue
          (.call (if isInc then incrementCheckedFunction ty
                  else decrementCheckedFunction ty)
            [.yident originalValue.name]) s3
        let s5 ← writeToLValue (lvDepth lv) lv modifiedValue s4
        let s6 := { s5 with lvalue := none }
        .ok (defineVar (exprVar e) (if isPre then modifiedValue else originalValue) s6)
    | _ => .error (.unimplemented "Unary operator not yet implemented")
  | .tupleE _ ty comps => do
    -- visit(TupleExpression), no inline arrays.
    if req then solAssertB (!s.lvalue.isSome) "" else pure ()
    match comps with
    | [some c] => do
      let s1 ← low c req s
      if req then do
        solAssertB s1.lvalue.isSome ""
        .ok s1
      else .ok (defineVar (exprVar e) (exprVar c) s1)
    | [none] => .error (.invariantViolation "")
    | _ => do
      let (s2, lvalues) ← lowerTupleComps low (exprVar e) req comps 0 s []
      if req then .ok { s2 with lvalue := some (.tupleLV ty lvalues) }
      else .ok s2
  | .extCallE _ _ callee info args => do
    -- visitor descent (callee, then arguments), then endVisit(FunctionCall)
    -- dispatching External / DelegateCall / Bare* kinds.
    let s1 ← low callee false s
    let s2 ← lowerArgsAux low args s1
    solUnimplementedAssertB (!info.bound) ""
    let (_, s3) ← appendExternalFunctionCall info (exprVar callee) (exprVar e)
      (args.map exprVar) s2
    .ok s3

/-- The fueled expression walker. -/
def lowerExpr : Nat → Expr → Bool → GenState → Except GenError GenState
  | 0, _, _, _ => .error .outOfFuel
  | fuel + 1, e, req, s => lowerExprStep (lowerExpr fuel) e req s

/-! ## Statements -/

inductive Stmt
  | exprStmtS (e : Expr)
  /-- `WhileStatement` (`isDoWhile` distinguishes do-while). -/
  | whileS (cond : Expr) (body : Stmt) (isDoWhile : Bool)
  /-- `ForStatement`: optional init statement, condition, loop expression. -/
  | forS (ini : Option Stmt) (cond : Option Expr) (post : Option Expr) (body : Stmt)
  | breakS
  | continueS
  | seqS (a b : Stmt)
  | skipS

/-- `IRGeneratorForStatements::generateLoop`, with the recursive descents
routed through the callbacks. -/
def generateLoop (lowS : Stmt → GenState → Except GenError GenState)
    (lowE : Expr → Bool → GenState → Except GenError GenState)
    (body : Stmt) (condExpr : Option Expr) (ini : Option Stmt)
    (loopExpr : Option Expr) (isDoWhile : Bool) (s : GenState) :
    Except GenError GenState := do
  let (firstRunVar, s) ←
    if isDoWhile then do
      solAssertB condExpr.isSome "Expected condition for doWhile"
      let (fr, s1) := newYulVariable s
      pure (some fr, emit (.letVar [fr] (.lit 1)) s1)
    else pure (none, s)
  let (preCode, s) ← captured
    (fun st =>
      match ini with
      | some i => lowS i st
      | none => .ok st) s
  let (postCode, s) ← captured
    (fun st =>
      match loopExpr with
      | some le => lowE le false st
      | none => .ok st) s
  let (bodyCode, s) ← captured
    (fun st => do
      let st ←
        match condExpr with
        | some ce =>
          match firstRunVar with
          | some fr => do
            let (condBlock, st1) ← captured
              (fun st2 => do
                let st3 ← lowE ce false st2
                .ok (emit (.ifStmt (.call "iszero"
                  [expressionAsType (exprVar ce) .boolTy]) [.breakStmt]) st3)) st
            let st2 := emit (.ifStmt (.call "iszero" [.yident fr]) condBlock) st1
            pure (emit (.assignVar [fr] (.lit 0)) st2)
          | none => do
            let st1 ← lowE ce false st
            pure (emit (.ifStmt (.call "iszero"
              [expressionAsType (exprVar ce) .boolTy]) [.breakStmt]) st1)
        | none => pure st
      lowS body st) s
  .ok (emit (.forLoop preCode (.lit 1) postCode bodyCode) s)

/-- One visitor dispatch of the statement walker. -/
def lowerStmtStep (lowS : Stmt → GenState → Except GenError GenState)
    (lowE : Expr → Bool → GenState → Except GenError GenState) :
    Stmt → GenState → Except GenError GenState
  | .exprStmtS e, s => lowE e false s
  | .whileS c b dw, s => generateLoop lowS lowE b (some c) none none dw s
  | .forS ini c post b, s => generateLoop lowS lowE b c ini post false s
  | .breakS, s => .ok (emit .breakStmt s)
  | .continueS, s => .ok (emit .continueStmt s)
  | .seqS a b, s => do
    let s1 ← lowS a s
    lowS b s1
  | .skipS, s => .ok s

/-- The fueled statement walker. -/
def lowerStmt : Nat → Stmt → GenState → Except GenError GenState
  | 0, _, _ => .error .outOfFuel
  | fuel + 1, st, s => lowerStmtStep (lowerStmt fuel) (lowerExpr fuel) st s

/-- `IRGeneratorForStatements::code()`: flushing the buffer asserts that no
active lvalue is left dangling. -/
def codeOf (s : GenState) : Except GenError (List YulStmt) :=
  if s.lvalue.isSome then .error (.invariantViolation "LValue not reset!")
  else .ok s.code

/-! ## A small-footprint semantics of the emitted Yul

Used to state observability properties of the emitted code ("the
unevaluated side produces no observable effects", "the body executes
exactly once").  Every call to a function outside a small whitelist of pure
EVM primitives is recorded as an observable effect in a trace; the
interpreter is fueled and deterministic. -/

/-- Execution state of emitted code: an environment of Yul variables and
the trace of observable effects (calls to non-pure functions, with their
argument values). -/
structure EState where
  env : List (String × Nat)
  trace : List (String × List Nat)

def envLookup : List (String × Nat) → String → Option Nat
  | [], _ => none
  | (k, v) :: rest, x => if k == x then some v else envLookup rest x

/-- Bind a statement's target names: the first receives the produced value
(a multi-value binding from an unknown call binds the rest to zero). -/
def bindNames (ns : List String) (v : Nat) (env : List (String × Nat)) :
    List (String × Nat) :=
  match ns with
  | [] => env
  | n :: rest => (n, v) :: (rest.map (fun m => (m, 0)) ++ env)

/-- Pure EVM primitives the interpreter computes; everything else is an
observable effect. -/
def applyPure : String → List Nat → Option Nat
  | "iszero", [a] => some (if a == 0 then 1 else 0)
  | "eq", [a, b] => some (if a == b then 1 else 0)
  | "lt", [a, b] => some (if a < b then 1 else 0)
  | "gt", [a, b] => some (if b < a then 1 else 0)
  | "add", [a, b] => some ((a + b) % 2 ^ 256)
  | "mul", [a, b] => some ((a * b) % 2 ^ 256)
  | "sub", [a, b] => some ((a + (2 ^ 256 - b % 2 ^ 256)) % 2 ^ 256)
  | _, _ => none

/-- Left-to-right evaluation of call arguments, accumulating effects. -/
def evalArgsAux (ev : YulExpr → Option (Nat × List (String × List Nat))) :
    List YulExpr → Option (List Nat × List (String × List Nat))
  | [] => some ([], [])
  | a :: rest => do
    let (v, ef) ← ev a
    let (vs, efs) ← evalArgsAux ev rest
    some (v :: vs, ef ++ efs)

/-- Fueled expression evaluation; a call to a non-whitelisted function
records an effect and produces 0. -/
def evalExpr : Nat → List (String × Nat) → YulExpr →
    Option (Nat × List (String × List Nat))
  | _, _, .lit v => some (v, [])
  | _, env, .yident x =>
    match envLookup env x with
    | none => none
    | some v => some (v, [])
  | 0, _, .call _ _ => none
  | fuel + 1, env, .call f args => do
    let (vs, efs) ← evalArgsAux (evalExpr fuel env) args
    match applyPure f vs with
    | some v => some (v, efs)
    | none => some (0, efs ++ [(f, vs)])

inductive LoopExit
  | normalE | breakE | continueE | leaveE

/-- Fueled execution of a statement sequence.  A `for` with a non-empty
initializer first splices the initializer in front of a pre-less copy (the
generated code never relies on block scoping: all emitted names are fresh).
`continue` jumps to the post-statements, `break` leaves the loop. -/
def execSeq : Nat → List YulStmt → EState → Option (EState × LoopExit)
  | _, [], st => some (st, .normalE)
  | 0, _ :: _, _ => none
  | fuel + 1, s :: rest, st =>
    match s with
    | .letVar ns e =>
      match evalExpr fuel st.env e with
      | none => none
      | some (v, efs) =>
        execSeq fuel rest ⟨bindNames ns v st.env, st.trace ++ efs⟩
    | .letDecl ns =>
      execSeq fuel rest ⟨bindNames ns 0 st.env, st.trace⟩
    | .assignVar ns e =>
      match evalExpr fuel st.env e with
      | none => none
      | some (v, efs) =>
        execSeq fuel rest ⟨bindNames ns v st.env, st.trace ++ efs⟩
    | .exprStmt e =>
      match evalExpr fuel st.env e with
      | none => none
      | some (_, efs) => execSeq fuel rest ⟨st.env, st.trace ++ efs⟩
    | .ifStmt c body =>
      match evalExpr fuel st.env c with
      | none => none
      | some (0, efs) => execSeq fuel rest ⟨st.env, st.trace ++ efs⟩
      | some (_ + 1, efs) =>
        match execSeq fuel body ⟨st.env, st.trace ++ efs⟩ with
        | none => none
        | some (st1, .normalE) => execSeq fuel rest st1
        | some (st1, ex) => some (st1, ex)
    | .forLoop pre c post body =>
      match pre with
      | _ :: _ => execSeq fuel (pre ++ .forLoop [] c post body :: rest) st
      | [] =>
        match evalExpr fuel st.env c with
        | none => none
        | some (0, efs) => execSeq fuel rest ⟨st.env, st.trace ++ efs⟩
        | some (_ + 1, efs) =>
          match execSeq fuel body ⟨st.env, st.trace ++ efs⟩ with
          | none => none
          | some (st1, .breakE) => execSeq fuel rest st1
          | some (st1, .leaveE) => some (st1, .leaveE)
          | some (st1, .normalE) | some (st1, .continueE) =>
            match execSeq fuel post st1 with
            | some (st2, .normalE) =>
              execSeq fuel (.forLoop [] c post body :: rest) st2
            | _ => none
    | .breakStmt => some (st, .breakE)
    | .continueStmt => some (st, .continueE)
    | .leaveStmt => some (st, .leaveE)

/-! ## Specification-side helpers and witness fixtures -/

/-- The state of a successful run (used by witnesses to name the result of
a concrete lowering without spelling the record out). -/
def okState : Except GenError GenState → GenState
  | .ok s => s
  | .error _ => ⟨0, none, [], ⟨false, false, false, false⟩⟩

/-- Reference order of tuple writes: the pairs `(idx, component)` are
consumed left to right, holes (`none`) are skipped, a present component is
written from `value.tupleComponent idx`.  Instantiated with
`comps.enum.reverse`, this is "component-wise in reverse component order,
holes skipped". -/
def writeCompsRTL (wr : IRLValue → IRVar → GenState → Except GenError GenState)
    (value : IRVar) :
    List (Nat × Option IRLValue) → GenState → Except GenError GenState
  | [], s => .ok s
  | (_, none) :: rest, s => writeCompsRTL wr value rest s
  | (idx, some lv) :: rest, s => do
    let s1 ← wr lv (value.tupleComponent idx) s
    writeCompsRTL wr value rest s1

/-- Index-annotate a component list starting at `i` (so
`(enumOpt 0 comps).reverse` lists the components in reverse declaration
order, each with its index). -/
def enumOpt : Nat → List (Option IRLValue) → List (Nat × Option IRLValue)
  | _, [] => []
  | i, c :: rest => (i, c) :: enumOpt (i + 1) rest

/-- A fully capable EVM target (used by witnesses). -/
def evmFull : EVMVersion := ⟨true, true, true, true⟩

/-- A pre-Tangerine-Whistle target without returndata support. -/
def evmOld : EVMVersion := ⟨false, false, false, false⟩

/-- A fresh generator state over `evmFull`. -/
def genState0 : GenState := ⟨0, none, [], evmFull⟩

/-- The template of a successful external-call encoding (used by witnesses
to name the result of a concrete run). -/
def okCallTemplate : Except GenError (CallTemplate × GenState) → CallTemplate
  | .ok (t, _) => t
  | .error _ =>
    ⟨false, "", "", "", .lit 0, "", "", "", [], 0, .lit 0, .lit 0, "", "",
      false, .lit 0, "", false, []⟩

/-- The post-state of a successful external-call encoding. -/
def okCallState : Except GenError (CallTemplate × GenState) → GenState
  | .ok (_, s) => s
  | .error _ => ⟨0, none, [], ⟨false, false, false, false⟩⟩

/-- A concrete external call used by the C7 witness: no explicit gas, a
value attached, on a target that cannot overcharge gas for calls. -/
def infoW7 : ExtCallInfo :=
  ⟨.externalCall, .payableM, false, true, false, false, false, [], [.intTy false]⟩

/-- Pre-state for the C7 witness: Tangerine Whistle gas schedule but no
gas overcharging. -/
def stateW7 : GenState := ⟨0, none, [], ⟨true, false, true, true⟩⟩

/-- The C7 witness run. -/
def runW7 : Except GenError (CallTemplate × GenState) :=
  appendExternalFunctionCall infoW7 ⟨"callee", .addressTy⟩ ⟨"res", .intTy false⟩
    [] stateW7

/-- Fixture: the compound assignment `x += 7` (rhs a rational literal, lhs
a local unsigned-integer variable). -/
def rhsW1 : Expr := .litE 2 (.rationalTy 7) 7

def lhsW1 : Expr := .identE 3 (.intTy false) "x" .localVar

def assignW1 : Expr := .assignE 1 (.intTy false) (some .addOp) lhsW1 rhsW1

def runW1 : Except GenError GenState :=
  lowerExprStep (lowerExpr 5) assignW1 false genState0

/-- Fixture: the tuple assignment `(x, , y) = z` (an assignment whose
annotated type is the empty tuple). -/
def lhsW10 : Expr :=
  .tupleE 6 (.tupleTy [.intTy false, .intTy false, .intTy false])
    [some (.identE 3 (.intTy false) "x" .localVar), none,
     some (.identE 7 (.intTy false) "y" .localVar)]

def rhsW10 : Expr :=
  .identE 8 (.tupleTy [.intTy false, .intTy false, .intTy false]) "z" .localVar

def assignW10 : Expr := .assignE 1 emptyTuple none lhsW10 rhsW10

def runW10 : Except GenError GenState :=
  lowerExprStep (lowerExpr 5) assignW10 false genState0

/-- Fixture: the short-circuit conjunction `a && b` on local booleans. -/
def aIdent : Expr := .identE 3 .boolTy "a" .localVar

def bIdent : Expr := .identE 4 .boolTy "b" .localVar

def andW2 : Expr := .binOpE 1 .boolTy .boolTy .andOp aIdent bIdent

def runW2 : Except GenError GenState :=
  lowerExprStep (lowerExpr 5) andW2 false genState0

/-- Fixture: the postfix increment `x++` on a local unsigned integer. -/
def incW5 : Expr :=
  .incDecE 5 (.intTy false) true false (.identE 3 (.intTy false) "x" .localVar)

def runW5 : Except GenError GenState :=
  lowerExprStep (lowerExpr 5) incW5 false genState0

/-- Fixture: the do-while loop `do { x++; } while (b)`. -/
def loopW4 : Stmt := .whileS bIdent (.exprStmtS incW5) true

def runW4 : Except GenError GenState := lowerStmt 8 loopW4 genState0

/-- Fixture: the plain while loop `while (b) { x++; }`. -/
def loopW4b : Stmt := .whileS bIdent (.exprStmtS incW5) false

def runW4b : Except GenError GenState := lowerStmt 8 loopW4b genState0

/-! # Theorems -/

/-! ## Monad-reduction helpers -/

theorem okBind {α β : Type} (a : α) (f : α → Except GenError β) :
    (Except.ok a >>= f) = f a := rfl

theorem errBind {α β : Type} (e : GenError) (f : α → Except GenError β) :
    ((Except.error e : Except GenError α) >>= f) = .error e := rfl

theorem pureIsOk {α : Type} (a : α) : (pure a : Except GenError α) = .ok a := rfl

theorem exBindAssoc {α β γ : Type} (m : Except GenError α)
    (f : α → Except GenError β) (g : β → Except GenError γ) :
    m >>= f >>= g = m >>= fun x => f x >>= g := by
  cases m <;> rfl

/-- Strip a passing `solAssert` from the head of a successful computation. -/
theorem solAssertB_bind_ok {α : Type} {b : Bool} {msg : String}
    {k : Unit → Except GenError α} {r : α}
    (h : (solAssertB b msg >>= k) = .ok r) : k () = .ok r := by
  cases b
  · simp [solAssertB, errBind] at h
  · simpa [solAssertB] using h

/-- The head `solAssert` of a successful computation passed. -/
theorem solAssertB_bind_cond {α : Type} {b : Bool} {msg : String}
    {k : Unit → Except GenError α} {r : α}
    (h : (solAssertB b msg >>= k) = .ok r) : b = true := by
  cases b
  · simp [solAssertB, errBind] at h
  · rfl

/-- Strip a passing `solUnimplementedAssert` from the head of a successful
computation. -/
theorem solUnimplB_bind_ok {α : Type} {b : Bool} {msg : String}
    {k : Unit → Except GenError α} {r : α}
    (h : (solUnimplementedAssertB b msg >>= k) = .ok r) : k () = .ok r := by
  cases b
  · simp [solUnimplementedAssertB, errBind] at h
  · simpa [solUnimplementedAssertB] using h

/-- The head `solUnimplementedAssert` of a successful computation passed. -/
theorem solUnimplB_bind_cond {α : Type} {b : Bool} {msg : String}
    {k : Unit → Except GenError α} {r : α}
    (h : (solUnimplementedAssertB b msg >>= k) = .ok r) : b = true := by
  cases b
  · simp [solUnimplementedAssertB, errBind] at h
  · rfl

/-- A bind whose head is an `if` of two pure values reduces to a plain
`if`. -/
theorem ifPureBind {α β : Type} {c : Prop} [Decidable c] (a b : α)
    (k : α → Except GenError β) :
    ((if c then pure a else pure b) >>= k) = k (if c then a else b) := by
  split <;> rfl

/-! ## C9: the one-active-lvalue invariant -/

/-- C9: at most one lvalue is active at any point of a traversal.  Every
lvalue-establishing operation checks at entry that none is active and
treats a violation as a fatal invariant error — `setLValue` (used by
identifiers, index accesses and `push`), as well as the direct tuple-lvalue
construction of `visit(TupleExpression)` — and flushing the generated code
(`code()`) checks that no active lvalue is left dangling. -/
theorem c9_single_active_lvalue
    (s : GenState) (h : s.lvalue.isSome)
    (v : IRVar) (req : Bool) (lv : IRLValue)
    (low : Expr → Bool → GenState → Except GenError GenState)
    (eid : Nat) (ty : SolType) (comps : List (Option Expr)) :
    (∃ m, setLValue v req lv s = .error (.invariantViolation m)) ∧
    (∃ m, codeOf s = .error (.invariantViolation m)) ∧
    (∃ m, lowerExprStep low (.tupleE eid ty comps) true s =
      .error (.invariantViolation m)) := by
  refine ⟨⟨"", ?_⟩, ⟨"LValue not reset!", ?_⟩, ⟨"", ?_⟩⟩
  · simp [setLValue, h]
  · simp [codeOf, h]
  · simp [lowerExprStep, solAssertB, h, errBind]

/-- Witness for C9 at a state whose active lvalue is set. -/
theorem c9_witness :
    (∃ m, setLValue ⟨"x", .boolTy⟩ true (.stackLV .boolTy ⟨"y", .boolTy⟩)
      ⟨0, some (.stackLV .boolTy ⟨"z", .boolTy⟩), [], evmFull⟩ =
      .error (.invariantViolation m)) ∧
    (∃ m, codeOf ⟨0, some (.stackLV .boolTy ⟨"z", .boolTy⟩), [], evmFull⟩ =
      .error (.invariantViolation m)) ∧
    (∃ m, lowerExprStep (lowerExpr 1) (.tupleE 1 .boolTy []) true
      ⟨0, some (.stackLV .boolTy ⟨"z", .boolTy⟩), [], evmFull⟩ =
      .error (.invariantViolation m)) :=
  c9_single_active_lvalue ⟨0, some (.stackLV .boolTy ⟨"z", .boolTy⟩), [], evmFull⟩
    (by rfl) _ _ _ _ _ _ _

/-! ## C3: bare low-level calls fail fast -/

/-- C3: a bare low-level call of a raw-result kind (`BareCall`,
`BareDelegateCall`, `BareStaticCall` — exactly the kinds that would need to
return raw `(success, data)` results / decode return values) is rejected by
`appendExternalFunctionCall` with an unimplemented-feature abort before any
encoding, call or decoding of returned data is emitted; the hypotheses only
rule out the earlier arity/bound/static-call invariant aborts. -/
theorem c3_bare_call_fails_fast
    (info : ExtCallInfo) (cv rv : IRVar) (argVars : List IRVar) (s : GenState)
    (hkind : info.kind = .bareCall ∨ info.kind = .bareDelegateCall ∨
      info.kind = .bareStaticCall)
    (harity : info.takesArbitraryParameters = true ∨
      argVars.length = info.parameterTypes.length)
    (hbound : info.bound = false)
    (hstatic : info.kind = .bareStaticCall → s.evm.hasStaticCall = true) :
    ∃ m, appendExternalFunctionCall info cv rv argVars s =
      .error (.unimplemented m) := by
  refine ⟨"", ?_⟩
  have harity' : (info.takesArbitraryParameters ||
      argVars.length == info.parameterTypes.length) = true := by
    rcases harity with h | h <;> simp [h]
  rcases hkind with h | h | h
  · simp [appendExternalFunctionCall, solAssertB, solUnimplementedAssertB,
      okBind, errBind, pureIsOk, harity', hbound, h, instCallKindBEq, ckEq,
      isBareCallKind]
  · simp [appendExternalFunctionCall, solAssertB, solUnimplementedAssertB,
      okBind, errBind, pureIsOk, harity', hbound, h, instCallKindBEq, ckEq,
      isBareCallKind]
  · simp [appendExternalFunctionCall, solAssertB, solUnimplementedAssertB,
      okBind, errBind, pureIsOk, harity', hbound, h, instCallKindBEq, ckEq,
      isBareCallKind, hstatic h]

/-- Witness for C3: a concrete raw-result bare call. -/
theorem c3_witness :
    ∃ m, appendExternalFunctionCall
      (ExtCallInfo.mk .bareCall .payableM false false false true false [] [])
      ⟨"callee", .addressTy⟩ ⟨"res", emptyTuple⟩ [] genState0 =
      .error (.unimplemented m) :=
  c3_bare_call_fails_fast
    (ExtCallInfo.mk .bareCall .payableM false false false true false [] [])
    ⟨"callee", .addressTy⟩ ⟨"res", emptyTuple⟩ [] genState0
    (Or.inl rfl) (Or.inl rfl) rfl (by intro h; cases h)

/-! ## C7: forwarded gas -/

/-- C7: on every external call that is successfully encoded, the forwarded
gas is the explicit gas value when one was set on the call; otherwise all
remaining gas (`gas()`) when the target EVM supports overcharging gas for
calls; otherwise remaining gas minus a conservative margin consisting of
the base call cost plus ten, a value-transfer surcharge exactly when a value
is sent, and a new-account surcharge exactly when the target-existence
check was skipped (it runs only for the `External` and `DelegateCall`
kinds). -/
theorem c7_forwarded_gas
    (info : ExtCallInfo) (cv rv : IRVar) (argVars : List IRVar) (s : GenState)
    (t : CallTemplate) (s' : GenState)
    (h : appendExternalFunctionCall info cv rv argVars s = .ok (t, s')) :
    t.gasExpr =
      if info.gasSet then .yident (cv.part "gas").name
      else if s.evm.canOverchargeGasForCall then .call "gas" []
      else
        .call "sub" [.call "gas" [],
          .lit (callGas s.evm + 10 +
            (if info.valueSet then callValueTransferGas else 0) +
            (if !(ckEq info.kind .externalCall || ckEq info.kind .delegateCall)
              then callNewAccountGas else 0))] := by
  unfold appendExternalFunctionCall at h
  replace h := solAssertB_bind_ok h
  replace h := solUnimplB_bind_ok h
  replace h := solAssertB_bind_ok h
  replace h := solAssertB_bind_ok h
  replace h := solAssertB_bind_ok h
  -- the memory-touch emission: both branches continue identically up to the
  -- buffer contents, which the template's gas field does not depend on
  by_cases hm : (!s.evm.canOverchargeGasForCall && !info.gasSet &&
      decide (0 < (if (info.kind == CallKind.bareCall ||
          info.kind == CallKind.bareDelegateCall ||
          info.kind == CallKind.bareStaticCall) = true then ((0 : Nat), false)
        else computeRetSizeAux
          (if (info.kind == CallKind.bareCall ||
              info.kind == CallKind.bareDelegateCall ||
              info.kind == CallKind.bareStaticCall) = true then []
            else if s.evm.supportsReturndata = true then info.returnParameterTypes
            else returnParameterTypesWithoutDynamicTypes info) 0).1)) = true <;>
    [simp only [hm, if_true, pureIsOk, okBind] at h;
     (rw [Bool.not_eq_true] at hm;
      simp only [hm, Bool.false_eq_true, if_false, pureIsOk, okBind] at h)] <;>
  · replace h := solUnimplB_bind_ok h
    replace h := solUnimplB_bind_ok h
    replace h := solUnimplB_bind_ok h
    by_cases hd : (info.kind == CallKind.bareDelegateCall ||
        info.kind == CallKind.delegateCall) = true
    · simp only [hd, if_true] at h
      replace h := solAssertB_bind_ok h
      replace h := solUnimplB_bind_ok h
      injection h with h1
      injection h1 with ht hs
      subst ht
      simp [emit, newYulVariable, instCallKindBEq]
    · rw [Bool.not_eq_true] at hd
      simp only [hd, Bool.false_eq_true, if_false] at h
      by_cases hu : (info.kind == CallKind.bareStaticCall ||
          mutabilityAtMostView info.mutability && s.evm.hasStaticCall) = true
      · simp only [hu, if_true] at h
        replace h := solAssertB_bind_ok h
        replace h := solUnimplB_bind_ok h
        injection h with h1
        injection h1 with ht hs
        subst ht
        simp [emit, newYulVariable, instCallKindBEq]
      · rw [Bool.not_eq_true] at hu
        simp only [hu, Bool.false_eq_true, if_false] at h
        by_cases hv : info.valueSet = true
        · simp only [hv, if_true] at h
          replace h := solUnimplB_bind_ok h
          injection h with h1
          injection h1 with ht hs
          subst ht
          simp [emit, newYulVariable, instCallKindBEq, hv]
        · rw [Bool.not_eq_true] at hv
          simp only [hv, Bool.false_eq_true, if_false] at h
          replace h := solUnimplB_bind_ok h
          injection h with h1
          injection h1 with ht hs
          subst ht
          simp [emit, newYulVariable, instCallKindBEq, hv]

/-- Witness for C7 at a concrete call: no explicit gas on a target without
gas overcharging, a value sent, existence check performed (kind `External`),
so the forwarded gas is `sub(gas(), 700 + 10 + 9000)`. -/
theorem c7_witness :
    (okCallTemplate runW7).gasExpr =
      if infoW7.gasSet then .yident ((⟨"callee", .addressTy⟩ : IRVar).part "gas").name
      else if stateW7.evm.canOverchargeGasForCall then .call "gas" []
      else
        .call "sub" [.call "gas" [],
          .lit (callGas stateW7.evm + 10 +
            (if infoW7.valueSet then callValueTransferGas else 0) +
            (if !(ckEq infoW7.kind .externalCall || ckEq infoW7.kind .delegateCall)
              then callNewAccountGas else 0))] :=
  c7_forwarded_gas infoW7 ⟨"callee", .addressTy⟩ ⟨"res", .intTy false⟩ [] stateW7
    (okCallTemplate runW7) (okCallState runW7) (by rfl)

/-! ## C6: comparison primitive selection -/

/-- C6: for a comparison over a value type, both operands are lowered
unconditionally and the primitive is selected by operand signedness
(`slt`/`sgt` when the common type is a signed integer, `lt`/`gt` for every
other value type); `>=` and `<=` are emitted as the `iszero` of the strict
opposite comparison (`<` and `>` respectively) rather than as dedicated
primitives. -/
theorem c6_comparison_selection
    (low : Expr → Bool → GenState → Except GenError GenState)
    (eid : Nat) (ty commonType : SolType) (op : BinOp) (l r : Expr)
    (s sF : GenState)
    (hop : op = .ltOp ∨ op = .gtOp ∨ op = .leOp ∨ op = .geOp)
    (hnr : ∀ v, commonType ≠ .rationalTy v)
    (h : lowerExprStep low (.binOpE eid ty commonType op l r) false s = .ok sF) :
    ∃ s1 s2, low l false s = .ok s1 ∧ low r false s1 = .ok s2 ∧
      sF = defineRhs (exprVar (.binOpE eid ty commonType op l r))
        (match op with
          | .ltOp => .call (if isSignedNumberType commonType then "slt" else "lt")
              [expressionAsType (exprVar l) commonType,
               expressionAsType (exprVar r) commonType]
          | .gtOp => .call (if isSignedNumberType commonType then "sgt" else "gt")
              [expressionAsType (exprVar l) commonType,
               expressionAsType (exprVar r) commonType]
          | .geOp => .call "iszero"
              [.call (if isSignedNumberType commonType then "slt" else "lt")
                [expressionAsType (exprVar l) commonType,
                 expressionAsType (exprVar r) commonType]]
          | .leOp => .call "iszero"
              [.call (if isSignedNumberType commonType then "sgt" else "gt")
                [expressionAsType (exprVar l) commonType,
                 expressionAsType (exprVar r) commonType]]
          | _ => .lit 0) s2 := by
  rcases hop with rfl | rfl | rfl | rfl <;>
    cases commonType <;>
    first
    | exact absurd rfl (hnr _)
    | (unfold lowerExprStep at h
       simp only [instBinOpBEq, bopEq, Bool.or_false, Bool.false_or,
         Bool.false_eq_true, if_false] at h
       cases hl : low l false s with
       | error e => rw [hl, errBind] at h; exact Except.noConfusion h
       | ok s1 =>
         rw [hl, okBind] at h
         cases hr : low r false s1 with
         | error e => rw [hr, errBind] at h; exact Except.noConfusion h
         | ok s2 =>
           rw [hr, okBind] at h
           simp only [solAssertB, isValueType, isCompareOp, comparisonExpr,
             isSignedNumberType, instBinOpBEq, bopEq, Bool.false_eq_true,
             if_false, if_true, okBind, errBind, pureIsOk] at h
           first
           | exact Except.noConfusion h
           | (injection h with h1
              exact ⟨s1, s2, rfl, hr, h1.symm⟩))

/-- Witness for C6: a concrete signed `<=` lowering (the emitted expression
is `iszero(sgt(...))`). -/
theorem c6_witness :
    ∃ s1 s2,
      lowerExpr 3 (.identE 11 (.intTy true) "x" .localVar) false genState0 = .ok s1 ∧
      lowerExpr 3 (.identE 12 (.intTy true) "y" .localVar) false s1 = .ok s2 ∧
      okState (lowerExprStep (lowerExpr 3)
        (.binOpE 10 .boolTy (.intTy true) .leOp
          (.identE 11 (.intTy true) "x" .localVar)
          (.identE 12 (.intTy true) "y" .localVar)) false genState0) =
      defineRhs (exprVar (.binOpE 10 .boolTy (.intTy true) .leOp
          (.identE 11 (.intTy true) "x" .localVar)
          (.identE 12 (.intTy true) "y" .localVar)))
        (.call "iszero"
          [.call (if isSignedNumberType (.intTy true) then "sgt" else "gt")
            [expressionAsType (exprVar (.identE 11 (.intTy true) "x" .localVar))
              (.intTy true),
             expressionAsType (exprVar (.identE 12 (.intTy true) "y" .localVar))
              (.intTy true)]]) s2 :=
  c6_comparison_selection (lowerExpr 3) 10 .boolTy (.intTy true) .leOp
    (.identE 11 (.intTy true) "x" .localVar)
    (.identE 12 (.intTy true) "y" .localVar) genState0 _
    (Or.inr (Or.inr (Or.inl rfl))) (fun v hv => by cases hv) (by rfl)

/-! ## Assignment lowering (shared inversion, C1, C10) -/

/-- Full inversion of a successful `visit(Assignment)` dispatch: names every
intermediate state of the pipeline.  Shared by the C1 and C10 theorems. -/
theorem assign_step_inversion
    (low : Expr → Bool → GenState → Except GenError GenState)
    (eid : Nat) (ty : SolType) (compoundOp : Option BinOp) (lhs rhs : Expr)
    (s0 sF : GenState)
    (h : lowerExprStep low (.assignE eid ty compoundOp lhs rhs) false s0 = .ok sF) :
    ∃ s1 s3 lv s4 s5,
      low rhs false s0 = .ok s1 ∧
      low lhs true (convertVar (exprVar rhs)
        (closestTemporaryType (tyOf rhs) (tyOf lhs)) s1).2 = .ok s3 ∧
      s3.lvalue = some lv ∧
      (match compoundOp with
        | none => s4 = s3
        | some bop => ∃ leftIntermediate s4a binE,
            readFromLValue lv s3 = .ok (leftIntermediate, s4a) ∧
            binaryOperation bop (closestTemporaryType (tyOf rhs) (tyOf lhs))
              (.yident leftIntermediate.name)
              (.yident (convertVar (exprVar rhs)
                (closestTemporaryType (tyOf rhs) (tyOf lhs)) s1).1.name) = .ok binE ∧
            s4 = emit (.assignVar [(convertVar (exprVar rhs)
              (closestTemporaryType (tyOf rhs) (tyOf lhs)) s1).1.name] binE) s4a) ∧
      writeToLValue (lvDepth lv) lv
        (convertVar (exprVar rhs) (closestTemporaryType (tyOf rhs) (tyOf lhs)) s1).1
        s4 = .ok s5 ∧
      sF = (if tyEq ty emptyTuple then { s5 with lvalue := none }
        else defineVar (exprVar (.assignE eid ty compoundOp lhs rhs))
          (convertVar (exprVar rhs) (closestTemporaryType (tyOf rhs) (tyOf lhs)) s1).1
          { s5 with lvalue := none }) := by
  simp only [lowerExprStep] at h
  cases hr : low rhs false s0 with
  | error e => rw [hr, errBind] at h; exact Except.noConfusion h
  | ok s1 =>
    rw [hr, okBind] at h
    refine ⟨s1, ?_⟩
    rcases hc : convertVar (exprVar rhs)
        (closestTemporaryType (tyOf rhs) (tyOf lhs)) s1 with ⟨value, s2⟩
    rw [hc] at h
    cases hl : low lhs true s2 with
    | error e => rw [hl, errBind] at h; exact Except.noConfusion h
    | ok s3 =>
      rw [hl, okBind] at h
      cases hlv : s3.lvalue with
      | none => rw [hlv] at h; exact Except.noConfusion h
      | some lv =>
        rw [hlv] at h
        cases compoundOp with
        | none =>
          simp only [pureIsOk, okBind] at h
          cases hw : writeToLValue (lvDepth lv) lv value s3 with
          | error e => rw [hw, errBind] at h; exact Except.noConfusion h
          | ok s5 =>
            rw [hw, okBind] at h
            simp only [hc]
            refine ⟨s3, lv, s3, s5, ?_, ?_, ?_, ?_, ?_, ?_⟩ <;>
              try first | trivial | exact hlv | exact hw | exact hl | rfl
            by_cases he : tyEq ty emptyTuple = true
            · rw [if_pos he] at h
              rw [if_pos he]
              injection h with h1
              exact h1.symm
            · rw [if_neg he] at h
              rw [if_neg he]
              injection h with h1
              exact h1.symm
        | some bop =>
          replace h := solAssertB_bind_ok h
          replace h := solAssertB_bind_ok h
          cases hread : readFromLValue lv s3 with
          | error e => rw [hread, errBind] at h; exact Except.noConfusion h
          | ok p =>
            rcases p with ⟨li, s4a⟩
            rw [hread, okBind] at h
            cases hbin : binaryOperation bop
                (closestTemporaryType (tyOf rhs) (tyOf lhs))
                (.yident li.name) (.yident value.name) with
            | error e => rw [hbin, errBind] at h; exact Except.noConfusion h
            | ok binE =>
              rw [hbin, okBind, pureIsOk, okBind] at h
              cases hw : writeToLValue (lvDepth lv) lv value
                  (emit (.assignVar [value.name] binE) s4a) with
              | error e => rw [hw, errBind] at h; exact Except.noConfusion h
              | ok s5 =>
                rw [hw, okBind] at h
                simp only [hc]
                refine ⟨s3, lv, emit (.assignVar [value.name] binE) s4a, s5,
                  ?_, ?_, ?_, ?_, ?_, ?_⟩ <;>
                  try (first | trivial | exact hlv | exact hw | exact hl | exact ⟨li, s4a, binE, hread, hbin, rfl⟩ | rfl)
                by_cases he : tyEq ty emptyTuple = true
                · rw [if_pos he] at h
                  rw [if_pos he]
                  injection h with h1
                  exact h1.symm
                · rw [if_neg he] at h
                  rw [if_neg he]
                  injection h with h1
                  exact h1.symm

/-- C1: assignment lowering order.  On every successful assignment
lowering, the right-hand side is lowered first (from the start state `s0`),
the result is converted to the common (closest temporary) type shared with
the left-hand side, and only then is the left-hand side lowered (from the
post-conversion state) to obtain its lvalue; a compound assignment
additionally reads the current value at that lvalue, applies the binary
operator to it and the converted right-hand value, and writes the combined
result; a non-compound assignment writes the converted right-hand value
directly. -/
theorem c1_assignment_lowering_order
    (low : Expr → Bool → GenState → Except GenError GenState)
    (eid : Nat) (ty : SolType) (compoundOp : Option BinOp) (lhs rhs : Expr)
    (s0 sF : GenState)
    (h : lowerExprStep low (.assignE eid ty compoundOp lhs rhs) false s0 = .ok sF) :
    ∃ s1 s3 lv s4 s5,
      low rhs false s0 = .ok s1 ∧
      low lhs true (convertVar (exprVar rhs)
        (closestTemporaryType (tyOf rhs) (tyOf lhs)) s1).2 = .ok s3 ∧
      s3.lvalue = some lv ∧
      (match compoundOp with
        | none => s4 = s3
        | some bop => ∃ leftIntermediate s4a binE,
            readFromLValue lv s3 = .ok (leftIntermediate, s4a) ∧
            binaryOperation bop (closestTemporaryType (tyOf rhs) (tyOf lhs))
              (.yident leftIntermediate.name)
              (.yident (convertVar (exprVar rhs)
                (closestTemporaryType (tyOf rhs) (tyOf lhs)) s1).1.name) = .ok binE ∧
            s4 = emit (.assignVar [(convertVar (exprVar rhs)
              (closestTemporaryType (tyOf rhs) (tyOf lhs)) s1).1.name] binE) s4a) ∧
      writeToLValue (lvDepth lv) lv
        (convertVar (exprVar rhs) (closestTemporaryType (tyOf rhs) (tyOf lhs)) s1).1
        s4 = .ok s5 ∧
      sF = (if tyEq ty emptyTuple then { s5 with lvalue := none }
        else defineVar (exprVar (.assignE eid ty compoundOp lhs rhs))
          (convertVar (exprVar rhs) (closestTemporaryType (tyOf rhs) (tyOf lhs)) s1).1
          { s5 with lvalue := none }) :=
  assign_step_inversion low eid ty compoundOp lhs rhs s0 sF h

/-- Witness for C1: the concrete compound assignment `x += 7`. -/
theorem c1_witness :
    ∃ s1 s3 lv s4 s5,
      lowerExpr 5 rhsW1 false genState0 = .ok s1 ∧
      lowerExpr 5 lhsW1 true (convertVar (exprVar rhsW1)
        (closestTemporaryType (tyOf rhsW1) (tyOf lhsW1)) s1).2 = .ok s3 ∧
      s3.lvalue = some lv ∧
      (match (some BinOp.addOp : Option BinOp) with
        | none => s4 = s3
        | some bop => ∃ leftIntermediate s4a binE,
            readFromLValue lv s3 = .ok (leftIntermediate, s4a) ∧
            binaryOperation bop (closestTemporaryType (tyOf rhsW1) (tyOf lhsW1))
              (.yident leftIntermediate.name)
              (.yident (convertVar (exprVar rhsW1)
                (closestTemporaryType (tyOf rhsW1) (tyOf lhsW1)) s1).1.name) = .ok binE ∧
            s4 = emit (.assignVar [(convertVar (exprVar rhsW1)
              (closestTemporaryType (tyOf rhsW1) (tyOf lhsW1)) s1).1.name] binE) s4a) ∧
      writeToLValue (lvDepth lv) lv
        (convertVar (exprVar rhsW1) (closestTemporaryType (tyOf rhsW1) (tyOf lhsW1)) s1).1
        s4 = .ok s5 ∧
      okState runW1 = (if tyEq (.intTy false) emptyTuple then { s5 with lvalue := none }
        else defineVar (exprVar assignW1)
          (convertVar (exprVar rhsW1) (closestTemporaryType (tyOf rhsW1) (tyOf lhsW1)) s1).1
          { s5 with lvalue := none }) :=
  c1_assignment_lowering_order (lowerExpr 5) 1 (.intTy false) (some .addOp)
    lhsW1 rhsW1 genState0 (okState runW1) (by rfl)

/-- C10: an assignment whose annotated static type is the empty tuple
performs the write but binds no result value for the assignment expression
itself (the output buffer is exactly the post-write buffer); for any other
annotated type, the converted right-hand value is additionally bound as the
assignment expression's own value via `define`. -/
theorem c10_assignment_result_binding
    (low : Expr → Bool → GenState → Except GenError GenState)
    (eid : Nat) (ty : SolType) (compoundOp : Option BinOp) (lhs rhs : Expr)
    (s0 sF : GenState)
    (h : lowerExprStep low (.assignE eid ty compoundOp lhs rhs) false s0 = .ok sF) :
    ∃ s1 s5,
      low rhs false s0 = .ok s1 ∧
      (∃ s3 lv s4, low lhs true (convertVar (exprVar rhs)
          (closestTemporaryType (tyOf rhs) (tyOf lhs)) s1).2 = .ok s3 ∧
        s3.lvalue = some lv ∧
        writeToLValue (lvDepth lv) lv
          (convertVar (exprVar rhs) (closestTemporaryType (tyOf rhs) (tyOf lhs)) s1).1
          s4 = .ok s5) ∧
      (tyEq ty emptyTuple = true →
        sF = { s5 with lvalue := none } ∧ sF.code = s5.code) ∧
      (tyEq ty emptyTuple = false →
        sF = defineVar (exprVar (.assignE eid ty compoundOp lhs rhs))
          (convertVar (exprVar rhs) (closestTemporaryType (tyOf rhs) (tyOf lhs)) s1).1
          { s5 with lvalue := none }) := by
  obtain ⟨s1, s3, lv, s4, s5, h1, h2, h3, _, h5, h6⟩ :=
    assign_step_inversion low eid ty compoundOp lhs rhs s0 sF h
  refine ⟨s1, s5, h1, ⟨s3, lv, s4, h2, h3, h5⟩, ?_, ?_⟩
  · intro he
    rw [if_pos he] at h6
    exact ⟨h6, by rw [h6]⟩
  · intro he
    rw [if_neg (by simp [he])] at h6
    exact h6

/-- Witness for C10: the concrete empty-tuple assignment `(x, , y) = z`. -/
theorem c10_witness :
    ∃ s1 s5,
      lowerExpr 5 rhsW10 false genState0 = .ok s1 ∧
      (∃ s3 lv s4, lowerExpr 5 lhsW10 true (convertVar (exprVar rhsW10)
          (closestTemporaryType (tyOf rhsW10) (tyOf lhsW10)) s1).2 = .ok s3 ∧
        s3.lvalue = some lv ∧
        writeToLValue (lvDepth lv) lv
          (convertVar (exprVar rhsW10)
            (closestTemporaryType (tyOf rhsW10) (tyOf lhsW10)) s1).1
          s4 = .ok s5) ∧
      (tyEq emptyTuple emptyTuple = true →
        okState runW10 = { s5 with lvalue := none } ∧
        (okState runW10).code = s5.code) ∧
      (tyEq emptyTuple emptyTuple = false →
        okState runW10 = defineVar (exprVar assignW10)
          (convertVar (exprVar rhsW10)
            (closestTemporaryType (tyOf rhsW10) (tyOf lhsW10)) s1).1
          { s5 with lvalue := none }) :=
  c10_assignment_result_binding (lowerExpr 5) 1 emptyTuple none
    lhsW10 rhsW10 genState0 (okState runW10) (by rfl)

/-! ## C5: increment / decrement -/

/-- C5: every integer increment/decrement lowering reads the current value
from the active lvalue established by its sub-expression, applies the
overflow-checked increment/decrement routine to it, writes the modified
value back to the same lvalue, and binds as the expression's result the new
(modified) value when the operator is prefix and the original
(pre-modification) value when it is postfix. -/
theorem c5_inc_dec_read_modify_write
    (low : Expr → Bool → GenState → Except GenError GenState)
    (eid : Nat) (sgn isInc isPre : Bool) (sub : Expr) (req : Bool)
    (s0 sF : GenState)
    (h : lowerExprStep low (.incDecE eid (.intTy sgn) isInc isPre sub) req s0 =
      .ok sF) :
    ∃ s1 lv originalValue s3 s5,
      low sub true s0 = .ok s1 ∧
      s1.lvalue = some lv ∧
      readFromLValue lv (newYulVariable s1).2 = .ok (originalValue, s3) ∧
      writeToLValue (lvDepth lv) lv ⟨(newYulVariable s1).1, .intTy sgn⟩
        (defineRhs ⟨(newYulVariable s1).1, .intTy sgn⟩
          (.call (if isInc then incrementCheckedFunction (.intTy sgn)
                  else decrementCheckedFunction (.intTy sgn))
            [.yident originalValue.name]) s3) = .ok s5 ∧
      sF = defineVar (exprVar (.incDecE eid (.intTy sgn) isInc isPre sub))
        (if isPre then ⟨(newYulVariable s1).1, .intTy sgn⟩ else originalValue)
        { s5 with lvalue := none } := by
  simp only [lowerExprStep] at h
  cases hsub : low sub true s0 with
  | error e => rw [hsub, errBind] at h; exact Except.noConfusion h
  | ok s1 =>
    rw [hsub, okBind] at h
    replace h := solAssertB_bind_ok h
    cases hlv : s1.lvalue with
    | none => rw [hlv] at h; exact Except.noConfusion h
    | some lv =>
      simp only [hlv] at h
      rcases hn : newYulVariable s1 with ⟨n, s2⟩
      simp only [hn] at h
      cases hrd : readFromLValue lv s2 with
      | error e => rw [hrd, errBind] at h; exact Except.noConfusion h
      | ok p =>
        rcases p with ⟨originalValue, s3⟩
        rw [hrd, okBind] at h
        cases hw : writeToLValue (lvDepth lv) lv ⟨n, .intTy sgn⟩
            (defineRhs ⟨n, .intTy sgn⟩
              (.call (if isInc then incrementCheckedFunction (.intTy sgn)
                      else decrementCheckedFunction (.intTy sgn))
                [.yident originalValue.name]) s3) with
        | error e => rw [hw, errBind] at h; exact Except.noConfusion h
        | ok s5 =>
          rw [hw, okBind] at h
          injection h with h1
          refine ⟨s1, lv, originalValue, s3, s5, rfl, hlv, ?_, ?_, ?_⟩
          · rw [hn]; exact hrd
          · rw [hn]; exact hw
          · rw [hn]; exact h1.symm

/-- Witness for C5: the concrete postfix increment `x++`. -/
theorem c5_witness :
    ∃ s1 lv originalValue s3 s5,
      lowerExpr 5 (.identE 3 (.intTy false) "x" .localVar) true genState0 = .ok s1 ∧
      s1.lvalue = some lv ∧
      readFromLValue lv (newYulVariable s1).2 = .ok (originalValue, s3) ∧
      writeToLValue (lvDepth lv) lv ⟨(newYulVariable s1).1, .intTy false⟩
        (defineRhs ⟨(newYulVariable s1).1, .intTy false⟩
          (.call (if true then incrementCheckedFunction (.intTy false)
                  else decrementCheckedFunction (.intTy false))
            [.yident originalValue.name]) s3) = .ok s5 ∧
      okState runW5 = defineVar (exprVar incW5)
        (if false then ⟨(newYulVariable s1).1, .intTy false⟩ else originalValue)
        { s5 with lvalue := none } :=
  c5_inc_dec_read_modify_write (lowerExpr 5) 5 false true false
    (.identE 3 (.intTy false) "x" .localVar) false genState0 (okState runW5)
    (by rfl)

/-! ## C8: tuple writes (reverse order, holes) -/

theorem take_succ_getD (l : List (Option IRLValue)) (k : Nat) (hk : k < l.length) :
    l.take (k + 1) = l.take k ++ [l.getD k none] := by
  induction l generalizing k with
  | nil => cases hk
  | cons a t ih =>
    cases k with
    | zero => simp
    | succ k =>
      simp only [List.take_succ_cons, List.getD_cons_succ, List.cons_append]
      rw [ih k (by simpa using hk)]

theorem enumOpt_concat (i : Nat) (l : List (Option IRLValue))
    (a : Option IRLValue) :
    enumOpt i (l ++ [a]) = enumOpt i l ++ [(i + l.length, a)] := by
  induction l generalizing i with
  | nil => simp [enumOpt]
  | cons b t ih =>
    show (i, b) :: enumOpt (i + 1) (t ++ [a]) =
      ((i, b) :: enumOpt (i + 1) t) ++ [(i + (b :: t).length, a)]
    rw [ih (i + 1)]
    have h2 : i + 1 + t.length = i + (b :: t).length := by
      simp only [List.length_cons]; omega
    rw [h2]
    rfl

/-- The descending-index loop of the tuple write equals the left-to-right
consumption of the reverse-enumerated prefix. -/
theorem writeTupleAux_spec
    (wr : IRLValue → IRVar → GenState → Except GenError GenState)
    (comps : List (Option IRLValue)) (value : IRVar) :
    ∀ k, k ≤ comps.length → ∀ s,
      writeTupleAux wr comps value k s =
        writeCompsRTL wr value (enumOpt 0 (comps.take k)).reverse s := by
  intro k
  induction k with
  | zero => intro _ s; rfl
  | succ k ih =>
    intro hk s
    have hk' : k < comps.length := by omega
    have hlen : (List.take k comps).length = k := by
      rw [List.length_take]; omega
    rw [take_succ_getD comps k hk', enumOpt_concat, List.reverse_append]
    simp only [List.reverse_cons, List.reverse_nil, List.nil_append,
      List.singleton_append, Nat.zero_add]
    rw [hlen]
    show writeTupleAux wr comps value (k + 1) s = _
    rw [show writeTupleAux wr comps value (k + 1) s =
      (match comps.getD k none with
        | some lv => do
          let s1 ← wr lv (value.tupleComponent k) s
          writeTupleAux wr comps value k s1
        | none => writeTupleAux wr comps value k s) from rfl]
    cases hg : comps.getD k none with
    | none =>
      show writeTupleAux wr comps value k s =
        writeCompsRTL wr value ((k, none) :: (enumOpt 0 (comps.take k)).reverse) s
      rw [show writeCompsRTL wr value
        ((k, none) :: (enumOpt 0 (comps.take k)).reverse) s =
        writeCompsRTL wr value (enumOpt 0 (comps.take k)).reverse s from rfl]
      exact ih (by omega) s
    | some lv =>
      show (do
          let s1 ← wr lv (value.tupleComponent k) s
          writeTupleAux wr comps value k s1) =
        writeCompsRTL wr value ((k, some lv) :: (enumOpt 0 (comps.take k)).reverse) s
      rw [show writeCompsRTL wr value
        ((k, some lv) :: (enumOpt 0 (comps.take k)).reverse) s =
        (do
          let s1 ← wr lv (value.tupleComponent k) s
          writeCompsRTL wr value (enumOpt 0 (comps.take k)).reverse s1) from rfl]
      cases wr lv (value.tupleComponent k) s with
      | error e => rfl
      | ok s1 =>
        rw [okBind, okBind]
        exact ih (by omega) s1

/-- C8: a write to a tuple lvalue decomposes the value by component and
writes component-wise in reverse component order (the reverse-enumerated
component list is consumed left to right, each present component written
from `value.tupleComponent idx`); holes are skipped by the write.  During
tuple-lvalue construction, the sub-expression of every non-hole component
is still lowered and its collected lvalue appended, while a hole appends an
empty slot; the resulting lvalue is the tuple of the collected slots. -/
theorem c8_tuple_write_reverse_order
    (low : Expr → Bool → GenState → Except GenError GenState)
    (tv value : IRVar) (fuel : Nat) (ty : SolType)
    (comps : List (Option IRLValue)) (s : GenState) :
    (writeToLValue (fuel + 1) (.tupleLV ty comps) value s =
      writeCompsRTL (writeToLValue fuel) value (enumOpt 0 comps).reverse s) ∧
    (∀ idx rest s',
      writeCompsRTL (writeToLValue fuel) value ((idx, none) :: rest) s' =
      writeCompsRTL (writeToLValue fuel) value rest s') ∧
    (∀ c rest i s0 acc result,
      lowerTupleComps low tv true (some c :: rest) i s0 acc = .ok result →
      ∃ sc, low c true s0 = .ok sc ∧ sc.lvalue.isSome = true ∧
        lowerTupleComps low tv true rest (i + 1) { sc with lvalue := none }
          (acc ++ [sc.lvalue]) = .ok result) ∧
    (∀ rest i s0 acc,
      lowerTupleComps low tv true (none :: rest) i s0 acc =
      lowerTupleComps low tv true rest (i + 1) s0 (acc ++ [none])) ∧
    (∀ eid c1 c2 crest s0 sF,
      lowerExprStep low (.tupleE eid ty (c1 :: c2 :: crest)) true s0 = .ok sF →
      ∃ s2 lvalues,
        lowerTupleComps low (exprVar (.tupleE eid ty (c1 :: c2 :: crest))) true
          (c1 :: c2 :: crest) 0 s0 [] = .ok (s2, lvalues) ∧
        sF = { s2 with lvalue := some (.tupleLV ty lvalues) }) := by
  refine ⟨?_, ?_, ?_, ?_, ?_⟩
  · show writeTupleAux (writeToLValue fuel) comps value comps.length s = _
    rw [writeTupleAux_spec (writeToLValue fuel) comps value comps.length
      (Nat.le_refl _) s, List.take_length]
  · intro idx rest s'
    rfl
  · intro c rest i s0 acc result hlc
    simp only [lowerTupleComps] at hlc
    cases hc : low c true s0 with
    | error e => rw [hc, errBind] at hlc; exact Except.noConfusion hlc
    | ok sc =>
      rw [hc, okBind] at hlc
      simp only [if_true] at hlc
      cases hsome : sc.lvalue.isSome with
      | false =>
        rw [hsome] at hlc
        simp [solAssertB, errBind] at hlc
      | true =>
        rw [hsome] at hlc
        simp only [solAssertB, if_true, okBind] at hlc
        exact ⟨sc, rfl, hsome, hlc⟩
  · intro rest i s0 acc
    rfl
  · intro eid c1 c2 crest s0 sF h
    simp only [lowerExprStep] at h
    replace h := solAssertB_bind_ok h
    cases hlt : lowerTupleComps low (exprVar (.tupleE eid ty (c1 :: c2 :: crest)))
        true (c1 :: c2 :: crest) 0 s0 [] with
    | error e => rw [hlt, errBind] at h; exact Except.noConfusion h
    | ok p =>
      rcases p with ⟨s2, lvalues⟩
      rw [hlt, okBind] at h
      simp only [if_true] at h
      injection h with h1
      exact ⟨s2, lvalues, rfl, h1.symm⟩

/-- Witness for C8: the hypotheses of the construction conjuncts at the
concrete tuple lvalue `(x, , y)` and a concrete three-component write. -/
theorem c8_witness :
    (writeToLValue 2
      (.tupleLV (.tupleTy [.intTy false, .intTy false, .intTy false])
        [some (.stackLV (.intTy false) ⟨"a", .intTy false⟩), none,
         some (.stackLV (.intTy false) ⟨"b", .intTy false⟩)])
      ⟨"v", .tupleTy [.intTy false, .intTy false, .intTy false]⟩ genState0 =
      writeCompsRTL (writeToLValue 1)
        ⟨"v", .tupleTy [.intTy false, .intTy false, .intTy false]⟩
        (enumOpt 0
          [some (.stackLV (.intTy false) ⟨"a", .intTy false⟩), none,
           some (.stackLV (.intTy false) ⟨"b", .intTy false⟩)]).reverse
        genState0) ∧
    (∃ s2 lvalues,
      lowerTupleComps (lowerExpr 5) (exprVar lhsW10) true
        [some (.identE 3 (.intTy false) "x" .localVar), none,
         some (.identE 7 (.intTy false) "y" .localVar)] 0 genState0 [] =
        .ok (s2, lvalues) ∧
      okState (lowerExprStep (lowerExpr 5) lhsW10 true genState0) =
        { s2 with lvalue := some (.tupleLV
            (.tupleTy [.intTy false, .intTy false, .intTy false]) lvalues) }) :=
  ⟨(c8_tuple_write_reverse_order (lowerExpr 5)
      (exprVar lhsW10)
      ⟨"v", .tupleTy [.intTy false, .intTy false, .intTy false]⟩ 1
      (.tupleTy [.intTy false, .intTy false, .intTy false])
      [some (.stackLV (.intTy false) ⟨"a", .intTy false⟩), none,
       some (.stackLV (.intTy false) ⟨"b", .intTy false⟩)] genState0).1,
   (c8_tuple_write_reverse_order (lowerExpr 5)
      (exprVar lhsW10)
      ⟨"v", .tupleTy [.intTy false, .intTy false, .intTy false]⟩ 1
      (.tupleTy [.intTy false, .intTy false, .intTy false])
      [some (.stackLV (.intTy false) ⟨"a", .intTy false⟩), none,
       some (.stackLV (.intTy false) ⟨"b", .intTy false⟩)] genState0).2.2.2.2
     6 (some (.identE 3 (.intTy false) "x" .localVar)) none
     [some (.identE 7 (.intTy false) "y" .localVar)] genState0
     (okState (lowerExprStep (lowerExpr 5) lhsW10 true genState0)) (by rfl)⟩

/-! ## C2: short-circuit boolean lowering -/

/-- C2: for `&&` the left operand is lowered and bound as the result, and
the right operand's code is emitted only inside a conditional block guarded
by the left value (where the result is rebound); for `||` the guard is the
negation (`iszero`) of the left value.  In the emitted program the
unevaluated side produces no observable effects: whenever the guard
evaluates to false (pure, no effects), execution passes the conditional by
with the environment and effect trace unchanged. -/
theorem c2_short_circuit
    (low : Expr → Bool → GenState → Except GenError GenState)
    (eid : Nat) (ty commonType : SolType) (op : BinOp) (l r : Expr)
    (req : Bool) (s sF : GenState)
    (hop : op = .andOp ∨ op = .orOp)
    (h : lowerExprStep low (.binOpE eid ty commonType op l r) req s = .ok sF) :
    ∃ s1 sR,
      low l false s = .ok s1 ∧
      low r false { defineVar (exprVar (.binOpE eid ty commonType op l r))
          (exprVar l) s1 with code := [] } = .ok sR ∧
      sF = emit (.ifStmt
          (if op == .orOp
            then .call "iszero"
              [.yident (exprVar (.binOpE eid ty commonType op l r)).name]
            else .yident (exprVar (.binOpE eid ty commonType op l r)).name)
          (assignVar (exprVar (.binOpE eid ty commonType op l r)) (exprVar r) sR).code)
        { assignVar (exprVar (.binOpE eid ty commonType op l r)) (exprVar r) sR with
          code := (defineVar (exprVar (.binOpE eid ty commonType op l r))
            (exprVar l) s1).code } ∧
      (∀ f est rest,
        evalExpr f est.env
          (if op == .orOp
            then .call "iszero"
              [.yident (exprVar (.binOpE eid ty commonType op l r)).name]
            else .yident (exprVar (.binOpE eid ty commonType op l r)).name) =
          some (0, []) →
        execSeq (f + 1)
          (.ifStmt (if op == .orOp
            then .call "iszero"
              [.yident (exprVar (.binOpE eid ty commonType op l r)).name]
            else .yident (exprVar (.binOpE eid ty commonType op l r)).name)
            (assignVar (exprVar (.binOpE eid ty commonType op l r)) (exprVar r)
              sR).code :: rest) est =
        execSeq f rest est) := by
  have hao : (op == BinOp.andOp || op == BinOp.orOp) = true := by
    rcases hop with rfl | rfl <;> rfl
  simp only [lowerExprStep] at h
  rw [hao] at h
  simp only [eq_self_iff_true, if_true] at h
  simp only [appendAndOrOperatorCode] at h
  replace h := solAssertB_bind_ok h
  cases hl : low l false s with
  | error e => rw [hl, errBind] at h; exact Except.noConfusion h
  | ok s1 =>
    rw [hl, okBind] at h
    simp only [captured] at h
    cases hr : low r false { defineVar (exprVar (.binOpE eid ty commonType op l r))
        (exprVar l) s1 with code := [] } with
    | error e => rw [hr, errBind] at h; exact Except.noConfusion h
    | ok sR =>
      rw [hr, okBind] at h
      simp only [okBind] at h
      injection h with h1
      refine ⟨s1, sR, ?_, ?_, h1.symm, ?_⟩
      · rfl
      · first | rfl | exact hr
      · intro f est rest hev
        simp only [execSeq, hev, List.append_nil]

/-- Witness for C2: the concrete conjunction `a && b`. -/
theorem c2_witness :
    ∃ s1 sR,
      lowerExpr 5 aIdent false genState0 = .ok s1 ∧
      lowerExpr 5 bIdent false
        { defineVar (exprVar andW2) (exprVar aIdent) s1 with code := [] } =
        .ok sR ∧
      okState runW2 = emit (.ifStmt
          (if BinOp.andOp == BinOp.orOp
            then .call "iszero" [.yident (exprVar andW2).name]
            else .yident (exprVar andW2).name)
          (assignVar (exprVar andW2) (exprVar bIdent) sR).code)
        { assignVar (exprVar andW2) (exprVar bIdent) sR with
          code := (defineVar (exprVar andW2) (exprVar aIdent) s1).code } ∧
      (∀ f est rest,
        evalExpr f est.env
          (if BinOp.andOp == BinOp.orOp
            then .call "iszero" [.yident (exprVar andW2).name]
            else .yident (exprVar andW2).name) = some (0, []) →
        execSeq (f + 1)
          (.ifStmt (if BinOp.andOp == BinOp.orOp
            then .call "iszero" [.yident (exprVar andW2).name]
            else .yident (exprVar andW2).name)
            (assignVar (exprVar andW2) (exprVar bIdent) sR).code :: rest) est =
        execSeq f rest est) :=
  c2_short_circuit (lowerExpr 5) 1 .boolTy .boolTy .andOp aIdent bIdent false
    genState0 (okState runW2) (Or.inl rfl) (by rfl)

/-! ## Interpreter toolkit: fuel monotonicity and sequencing -/

theorem obindSome {α β : Type} (a : α) (f : α → Option β) :
    ((some a : Option α) >>= f) = f a := rfl

theorem obindNone {α β : Type} (f : α → Option β) :
    ((none : Option α) >>= f) = none := rfl

theorem execSeq_nil (f : Nat) (st : EState) :
    execSeq f [] st = some (st, .normalE) := by
  cases f <;> rfl

theorem execSeq_zero_cons (s : YulStmt) (l : List YulStmt) (st : EState) :
    execSeq 0 (s :: l) st = none := rfl

theorem evalExpr_lit (f : Nat) (env : List (String × Nat)) (v : Nat) :
    evalExpr f env (.lit v) = some (v, []) := by
  cases f <;> rfl

theorem evalExpr_ident (f : Nat) (env : List (String × Nat)) (x : String) :
    evalExpr f env (.yident x) =
      (match envLookup env x with
        | none => none
        | some v => some (v, [])) := by
  cases f <;> rfl

theorem evalArgsAux_mono
    (ev ev' : YulExpr → Option (Nat × List (String × List Nat)))
    (hext : ∀ a v, ev a = some v → ev' a = some v) :
    ∀ l v, evalArgsAux ev l = some v → evalArgsAux ev' l = some v := by
  intro l
  induction l with
  | nil => intro v h; exact h
  | cons a t ih =>
    intro v h
    simp only [evalArgsAux] at h ⊢
    cases ha : ev a with
    | none => rw [ha, obindNone] at h; exact Option.noConfusion h
    | some p =>
      rw [ha, obindSome] at h
      rw [hext a p ha, obindSome]
      cases ht : evalArgsAux ev t with
      | none => rw [ht] at h; exact Option.noConfusion h
      | some q =>
        rw [ht] at h
        rw [ih q ht]
        exact h

theorem evalExpr_mono :
    ∀ f f' env e r, f ≤ f' → evalExpr f env e = some r →
      evalExpr f' env e = some r := by
  intro f
  induction f with
  | zero =>
    intro f' env e r _ h
    cases e with
    | lit v => rw [evalExpr_lit] at h; rw [evalExpr_lit]; exact h
    | yident x => rw [evalExpr_ident] at h; rw [evalExpr_ident]; exact h
    | call g args => exact Option.noConfusion h
  | succ f ih =>
    intro f' env e r hle h
    cases e with
    | lit v => rw [evalExpr_lit] at h; rw [evalExpr_lit]; exact h
    | yident x => rw [evalExpr_ident] at h; rw [evalExpr_ident]; exact h
    | call g args =>
      cases f' with
      | zero => omega
      | succ f'' =>
        have hle' : f ≤ f'' := by omega
        simp only [evalExpr] at h ⊢
        cases ha : evalArgsAux (evalExpr f env) args with
        | none => rw [ha, obindNone] at h; exact Option.noConfusion h
        | some p =>
          rw [ha, obindSome] at h
          rw [evalArgsAux_mono (evalExpr f env) (evalExpr f'' env)
            (fun a v hv => ih f'' env a v hle' hv) args p ha, obindSome]
          exact h

/-! Small-step equations for `execSeq`, keyed by the evaluation of the
head statement's scrutinees. -/

theorem execSeq_letVar {f : Nat} {st : EState} {e : YulExpr} {v : Nat}
    {efs : List (String × List Nat)} (ns : List String) (rest : List YulStmt)
    (he : evalExpr f st.env e = some (v, efs)) :
    execSeq (f + 1) (.letVar ns e :: rest) st =
      execSeq f rest ⟨bindNames ns v st.env, st.trace ++ efs⟩ := by
  simp only [execSeq, he]

theorem execSeq_letVar_none {f : Nat} {st : EState} {e : YulExpr}
    (ns : List String) (rest : List YulStmt)
    (he : evalExpr f st.env e = none) :
    execSeq (f + 1) (.letVar ns e :: rest) st = none := by
  simp only [execSeq, he]

theorem execSeq_letDecl {f : Nat} {st : EState} (ns : List String)
    (rest : List YulStmt) :
    execSeq (f + 1) (.letDecl ns :: rest) st =
      execSeq f rest ⟨bindNames ns 0 st.env, st.trace⟩ := rfl

theorem execSeq_assignVar {f : Nat} {st : EState} {e : YulExpr} {v : Nat}
    {efs : List (String × List Nat)} (ns : List String) (rest : List YulStmt)
    (he : evalExpr f st.env e = some (v, efs)) :
    execSeq (f + 1) (.assignVar ns e :: rest) st =
      execSeq f rest ⟨bindNames ns v st.env, st.trace ++ efs⟩ := by
  simp only [execSeq, he]

theorem execSeq_assignVar_none {f : Nat} {st : EState} {e : YulExpr}
    (ns : List String) (rest : List YulStmt)
    (he : evalExpr f st.env e = none) :
    execSeq (f + 1) (.assignVar ns e :: rest) st = none := by
  simp only [execSeq, he]

theorem execSeq_exprStmt {f : Nat} {st : EState} {e : YulExpr} {v : Nat}
    {efs : List (String × List Nat)} (rest : List YulStmt)
    (he : evalExpr f st.env e = some (v, efs)) :
    execSeq (f + 1) (.exprStmt e :: rest) st =
      execSeq f rest ⟨st.env, st.trace ++ efs⟩ := by
  simp only [execSeq, he]

theorem execSeq_exprStmt_none {f : Nat} {st : EState} {e : YulExpr}
    (rest : List YulStmt) (he : evalExpr f st.env e = none) :
    execSeq (f + 1) (.exprStmt e :: rest) st = none := by
  simp only [execSeq, he]

theorem execSeq_if_none {f : Nat} {st : EState} {c : YulExpr}
    (body rest : List YulStmt) (he : evalExpr f st.env c = none) :
    execSeq (f + 1) (.ifStmt c body :: rest) st = none := by
  simp only [execSeq, he]

theorem execSeq_if_false {f : Nat} {st : EState} {c : YulExpr}
    {efs : List (String × List Nat)} (body rest : List YulStmt)
    (he : evalExpr f st.env c = some (0, efs)) :
    execSeq (f + 1) (.ifStmt c body :: rest) st =
      execSeq f rest ⟨st.env, st.trace ++ efs⟩ := by
  simp only [execSeq, he]

theorem execSeq_if_true {f : Nat} {st : EState} {c : YulExpr} {v : Nat}
    {efs : List (String × List Nat)} (body rest : List YulStmt)
    (he : evalExpr f st.env c = some (v + 1, efs)) :
    execSeq (f + 1) (.ifStmt c body :: rest) st =
      (match execSeq f body ⟨st.env, st.trace ++ efs⟩ with
        | none => none
        | some (st1, .normalE) => execSeq f rest st1
        | some (st1, ex) => some (st1, ex)) := by
  simp only [execSeq, he]

theorem execSeq_for_pre {f : Nat} {st : EState} {c : YulExpr}
    (p : YulStmt) (ps post body rest : List YulStmt) :
    execSeq (f + 1) (.forLoop (p :: ps) c post body :: rest) st =
      execSeq f ((p :: ps) ++ .forLoop [] c post body :: rest) st := rfl

theorem execSeq_for_none {f : Nat} {st : EState} {c : YulExpr}
    (post body rest : List YulStmt) (he : evalExpr f st.env c = none) :
    execSeq (f + 1) (.forLoop [] c post body :: rest) st = none := by
  simp only [execSeq, he]

theorem execSeq_for_false {f : Nat} {st : EState} {c : YulExpr}
    {efs : List (String × List Nat)} (post body rest : List YulStmt)
    (he : evalExpr f st.env c = some (0, efs)) :
    execSeq (f + 1) (.forLoop [] c post body :: rest) st =
      execSeq f rest ⟨st.env, st.trace ++ efs⟩ := by
  simp only [execSeq, he]

theorem execSeq_for_true {f : Nat} {st : EState} {c : YulExpr} {v : Nat}
    {efs : List (String × List Nat)} (post body rest : List YulStmt)
    (he : evalExpr f st.env c = some (v + 1, efs)) :
    execSeq (f + 1) (.forLoop [] c post body :: rest) st =
      (match execSeq f body ⟨st.env, st.trace ++ efs⟩ with
        | none => none
        | some (st1, .breakE) => execSeq f rest st1
        | some (st1, .leaveE) => some (st1, .leaveE)
        | some (st1, .normalE) =>
          (match execSeq f post st1 with
            | some (st2, .normalE) =>
              execSeq f (.forLoop [] c post body :: rest) st2
            | _ => none)
        | some (st1, .continueE) =>
          (match execSeq f post st1 with
            | some (st2, .normalE) =>
              execSeq f (.forLoop [] c post body :: rest) st2
            | _ => none)) := by
  simp only [execSeq, he]

theorem execSeq_break {f : Nat} {st : EState} (rest : List YulStmt) :
    execSeq (f + 1) (.breakStmt :: rest) st = some (st, .breakE) := rfl

theorem execSeq_continue {f : Nat} {st : EState} (rest : List YulStmt) :
    execSeq (f + 1) (.continueStmt :: rest) st = some (st, .continueE) := rfl

theorem execSeq_leave {f : Nat} {st : EState} (rest : List YulStmt) :
    execSeq (f + 1) (.leaveStmt :: rest) st = some (st, .leaveE) := rfl

theorem execSeq_mono :
    ∀ f f' l st r, f ≤ f' → execSeq f l st = some r → execSeq f' l st = some r := by
  intro f
  induction f with
  | zero =>
    intro f' l st r _ h
    cases l with
    | nil => rw [execSeq_nil] at h; rw [execSeq_nil]; exact h
    | cons s t => rw [execSeq_zero_cons] at h; exact Option.noConfusion h
  | succ f ih =>
    intro f' l st r hle h
    cases l with
    | nil => rw [execSeq_nil] at h; rw [execSeq_nil]; exact h
    | cons stmt rest =>
      cases f' with
      | zero => omega
      | succ f'' =>
        have hle' : f ≤ f'' := by omega
        cases stmt with
        | letVar ns e =>
          cases he : evalExpr f st.env e with
          | none => rw [execSeq_letVar_none ns rest he] at h; exact Option.noConfusion h
          | some p =>
            rcases p with ⟨v, efs⟩
            rw [execSeq_letVar ns rest he] at h
            rw [execSeq_letVar ns rest (evalExpr_mono f f'' st.env e (v, efs) hle' he)]
            exact ih f'' rest _ r hle' h
        | letDecl ns =>
          rw [execSeq_letDecl ns rest] at h
          rw [execSeq_letDecl ns rest]
          exact ih f'' rest _ r hle' h
        | assignVar ns e =>
          cases he : evalExpr f st.env e with
          | none => rw [execSeq_assignVar_none ns rest he] at h; exact Option.noConfusion h
          | some p =>
            rcases p with ⟨v, efs⟩
            rw [execSeq_assignVar ns rest he] at h
            rw [execSeq_assignVar ns rest (evalExpr_mono f f'' st.env e (v, efs) hle' he)]
            exact ih f'' rest _ r hle' h
        | exprStmt e =>
          cases he : evalExpr f st.env e with
          | none => rw [execSeq_exprStmt_none rest he] at h; exact Option.noConfusion h
          | some p =>
            rcases p with ⟨v, efs⟩
            rw [execSeq_exprStmt rest he] at h
            rw [execSeq_exprStmt rest (evalExpr_mono f f'' st.env e (v, efs) hle' he)]
            exact ih f'' rest _ r hle' h
        | ifStmt c body =>
          cases he : evalExpr f st.env c with
          | none => rw [execSeq_if_none body rest he] at h; exact Option.noConfusion h
          | some p =>
            rcases p with ⟨v, efs⟩
            have he2 := evalExpr_mono f f'' st.env c (v, efs) hle' he
            cases v with
            | zero =>
              rw [execSeq_if_false body rest he] at h
              rw [execSeq_if_false body rest he2]
              exact ih f'' rest _ r hle' h
            | succ v =>
              rw [execSeq_if_true body rest he] at h
              rw [execSeq_if_true body rest he2]
              cases hb : execSeq f body ⟨st.env, st.trace ++ efs⟩ with
              | none => simp only [hb] at h; exact Option.noConfusion h
              | some q =>
                rcases q with ⟨st1, ex⟩
                have hb2 := ih f'' body _ (st1, ex) hle' hb
                cases ex with
                | normalE =>
                  simp only [hb] at h
                  simp only [hb2]
                  exact ih f'' rest _ r hle' h
                | breakE =>
                  simp only [hb] at h
                  simp only [hb2]
                  exact h
                | continueE =>
                  simp only [hb] at h
                  simp only [hb2]
                  exact h
                | leaveE =>
                  simp only [hb] at h
                  simp only [hb2]
                  exact h
        | forLoop pre c post body =>
          cases pre with
          | cons p ps =>
            rw [execSeq_for_pre p ps post body rest] at h
            rw [execSeq_for_pre p ps post body rest]
            exact ih f'' _ _ r hle' h
          | nil =>
            cases he : evalExpr f st.env c with
            | none => rw [execSeq_for_none post body rest he] at h; exact Option.noConfusion h
            | some p =>
              rcases p with ⟨v, efs⟩
              have he2 := evalExpr_mono f f'' st.env c (v, efs) hle' he
              cases v with
              | zero =>
                rw [execSeq_for_false post body rest he] at h
                rw [execSeq_for_false post body rest he2]
                exact ih f'' rest _ r hle' h
              | succ v =>
                rw [execSeq_for_true post body rest he] at h
                rw [execSeq_for_true post body rest he2]
                cases hb : execSeq f body ⟨st.env, st.trace ++ efs⟩ with
                | none => simp only [hb] at h; exact Option.noConfusion h
                | some q =>
                  rcases q with ⟨st1, ex⟩
                  have hb2 := ih f'' body _ (st1, ex) hle' hb
                  cases ex with
                  | breakE =>
                    simp only [hb] at h
                    simp only [hb2]
                    exact ih f'' rest _ r hle' h
                  | leaveE =>
                    simp only [hb] at h
                    simp only [hb2]
                    exact h
                  | normalE =>
                    simp only [hb] at h
                    simp only [hb2]
                    cases hp : execSeq f post st1 with
                    | none => simp only [hp] at h; exact Option.noConfusion h
                    | some q2 =>
                      rcases q2 with ⟨st2, exq⟩
                      have hp2 := ih f'' post st1 (st2, exq) hle' hp
                      cases exq with
                      | normalE =>
                        simp only [hp] at h
                        simp only [hp2]
                        exact ih f'' _ _ r hle' h
                      | breakE => simp only [hp] at h; exact Option.noConfusion h
                      | continueE => simp only [hp] at h; exact Option.noConfusion h
                      | leaveE => simp only [hp] at h; exact Option.noConfusion h
                  | continueE =>
                    simp only [hb] at h
                    simp only [hb2]
                    cases hp : execSeq f post st1 with
                    | none => simp only [hp] at h; exact Option.noConfusion h
                    | some q2 =>
                      rcases q2 with ⟨st2, exq⟩
                      have hp2 := ih f'' post st1 (st2, exq) hle' hp
                      cases exq with
                      | normalE =>
                        simp only [hp] at h
                        simp only [hp2]
                        exact ih f'' _ _ r hle' h
                      | breakE => simp only [hp] at h; exact Option.noConfusion h
                      | continueE => simp only [hp] at h; exact Option.noConfusion h
                      | leaveE => simp only [hp] at h; exact Option.noConfusion h
        | breakStmt =>
          rw [execSeq_break rest] at h
          rw [execSeq_break rest]
          exact h
        | continueStmt =>
          rw [execSeq_continue rest] at h
          rw [execSeq_continue rest]
          exact h
        | leaveStmt =>
          rw [execSeq_leave rest] at h
          rw [execSeq_leave rest]
          exact h

/-- Sequencing: a normally-terminating run of `l1` followed by a run of `l2`
yields a run of `l1 ++ l2` at some fuel. -/
theorem execSeq_append :
    ∀ f1 l1 st st1, execSeq f1 l1 st = some (st1, LoopExit.normalE) →
      ∀ f2 l2 r, execSeq f2 l2 st1 = some r →
        ∃ F, execSeq F (l1 ++ l2) st = some r := by
  intro f1
  induction f1 with
  | zero =>
    intro l1 st st1 h f2 l2 r h2
    cases l1 with
    | nil =>
      rw [execSeq_nil] at h
      injection h with h
      injection h with h3 _
      subst h3
      exact ⟨f2, h2⟩
    | cons s t => rw [execSeq_zero_cons] at h; exact Option.noConfusion h
  | succ f ih =>
    intro l1 st st1 h f2 l2 r h2
    cases l1 with
    | nil =>
      rw [execSeq_nil] at h
      injection h with h
      injection h with h3 _
      subst h3
      exact ⟨f2, h2⟩
    | cons stmt rest =>
      cases stmt with
      | letVar ns e =>
        cases he : evalExpr f st.env e with
        | none => rw [execSeq_letVar_none ns rest he] at h; exact Option.noConfusion h
        | some p =>
          rcases p with ⟨v, efs⟩
          rw [execSeq_letVar ns rest he] at h
          obtain ⟨F1, hF1⟩ := ih rest _ st1 h f2 l2 r h2
          refine ⟨max f F1 + 1, ?_⟩
          rw [List.cons_append,
            execSeq_letVar ns (rest ++ l2)
              (evalExpr_mono f (max f F1) st.env e (v, efs) (Nat.le_max_left f F1) he)]
          exact execSeq_mono F1 (max f F1) _ _ r (Nat.le_max_right f F1) hF1
      | letDecl ns =>
        rw [execSeq_letDecl ns rest] at h
        obtain ⟨F1, hF1⟩ := ih rest _ st1 h f2 l2 r h2
        refine ⟨F1 + 1, ?_⟩
        rw [List.cons_append, execSeq_letDecl ns (rest ++ l2)]
        exact hF1
      | assignVar ns e =>
        cases he : evalExpr f st.env e with
        | none => rw [execSeq_assignVar_none ns rest he] at h; exact Option.noConfusion h
        | some p =>
          rcases p with ⟨v, efs⟩
          rw [execSeq_assignVar ns rest he] at h
          obtain ⟨F1, hF1⟩ := ih rest _ st1 h f2 l2 r h2
          refine ⟨max f F1 + 1, ?_⟩
          rw [List.cons_append,
            execSeq_assignVar ns (rest ++ l2)
              (evalExpr_mono f (max f F1) st.env e (v, efs) (Nat.le_max_left f F1) he)]
          exact execSeq_mono F1 (max f F1) _ _ r (Nat.le_max_right f F1) hF1
      | exprStmt e =>
        cases he : evalExpr f st.env e with
        | none => rw [execSeq_exprStmt_none rest he] at h; exact Option.noConfusion h
        | some p =>
          rcases p with ⟨v, efs⟩
          rw [execSeq_exprStmt rest he] at h
          obtain ⟨F1, hF1⟩ := ih rest _ st1 h f2 l2 r h2
          refine ⟨max f F1 + 1, ?_⟩
          rw [List.cons_append,
            execSeq_exprStmt (rest ++ l2)
              (evalExpr_mono f (max f F1) st.env e (v, efs) (Nat.le_max_left f F1) he)]
          exact execSeq_mono F1 (max f F1) _ _ r (Nat.le_max_right f F1) hF1
      | ifStmt c body =>
        cases he : evalExpr f st.env c with
        | none => rw [execSeq_if_none body rest he] at h; exact Option.noConfusion h
        | some p =>
          rcases p with ⟨v, efs⟩
          cases v with
          | zero =>
            rw [execSeq_if_false body rest he] at h
            obtain ⟨F1, hF1⟩ := ih rest _ st1 h f2 l2 r h2
            refine ⟨max f F1 + 1, ?_⟩
            rw [List.cons_append,
              execSeq_if_false body (rest ++ l2)
                (evalExpr_mono f (max f F1) st.env c (0, efs) (Nat.le_max_left f F1) he)]
            exact execSeq_mono F1 (max f F1) _ _ r (Nat.le_max_right f F1) hF1
          | succ v =>
            rw [execSeq_if_true body rest he] at h
            cases hb : execSeq f body ⟨st.env, st.trace ++ efs⟩ with
            | none => simp only [hb] at h; exact Option.noConfusion h
            | some q =>
              rcases q with ⟨stb, exb⟩
              cases exb with
              | normalE =>
                simp only [hb] at h
                obtain ⟨F1, hF1⟩ := ih rest _ st1 h f2 l2 r h2
                refine ⟨max f F1 + 1, ?_⟩
                rw [List.cons_append,
                  execSeq_if_true body (rest ++ l2)
                    (evalExpr_mono f (max f F1) st.env c (v + 1, efs) (Nat.le_max_left f F1) he)]
                simp only [execSeq_mono f (max f F1) body _ (stb, LoopExit.normalE) (Nat.le_max_left f F1) hb]
                exact execSeq_mono F1 (max f F1) _ _ r (Nat.le_max_right f F1) hF1
              | breakE => simp only [hb] at h; simp at h
              | continueE => simp only [hb] at h; simp at h
              | leaveE => simp only [hb] at h; simp at h
      | forLoop pre c post body =>
        cases pre with
        | cons p ps =>
          rw [execSeq_for_pre p ps post body rest] at h
          obtain ⟨F1, hF1⟩ := ih _ _ st1 h f2 l2 r h2
          refine ⟨F1 + 1, ?_⟩
          rw [List.cons_append, execSeq_for_pre p ps post body (rest ++ l2)]
          rw [List.append_assoc, List.cons_append] at hF1
          exact hF1
        | nil =>
          cases he : evalExpr f st.env c with
          | none => rw [execSeq_for_none post body rest he] at h; exact Option.noConfusion h
          | some p =>
            rcases p with ⟨v, efs⟩
            cases v with
            | zero =>
              rw [execSeq_for_false post body rest he] at h
              obtain ⟨F1, hF1⟩ := ih rest _ st1 h f2 l2 r h2
              refine ⟨max f F1 + 1, ?_⟩
              rw [List.cons_append,
                execSeq_for_false post body (rest ++ l2)
                  (evalExpr_mono f (max f F1) st.env c (0, efs) (Nat.le_max_left f F1) he)]
              exact execSeq_mono F1 (max f F1) _ _ r (Nat.le_max_right f F1) hF1
            | succ v =>
              rw [execSeq_for_true post body rest he] at h
              cases hb : execSeq f body ⟨st.env, st.trace ++ efs⟩ with
              | none => simp only [hb] at h; exact Option.noConfusion h
              | some q =>
                rcases q with ⟨stb, exb⟩
                cases exb with
                | breakE =>
                  simp only [hb] at h
                  obtain ⟨F1, hF1⟩ := ih rest _ st1 h f2 l2 r h2
                  refine ⟨max f F1 + 1, ?_⟩
                  rw [List.cons_append,
                    execSeq_for_true post body (rest ++ l2)
                      (evalExpr_mono f (max f F1) st.env c (v + 1, efs) (Nat.le_max_left f F1) he)]
                  simp only [execSeq_mono f (max f F1) body _ (stb, LoopExit.breakE) (Nat.le_max_left f F1) hb]
                  exact execSeq_mono F1 (max f F1) _ _ r (Nat.le_max_right f F1) hF1
                | leaveE => simp only [hb] at h; simp at h
                | normalE =>
                  simp only [hb] at h
                  cases hp : execSeq f post stb with
                  | none => simp only [hp] at h; exact Option.noConfusion h
                  | some q2 =>
                    rcases q2 with ⟨st2, exq⟩
                    cases exq with
                    | normalE =>
                      simp only [hp] at h
                      obtain ⟨F1, hF1⟩ := ih (YulStmt.forLoop [] c post body :: rest) _ st1 h f2 l2 r h2
                      refine ⟨max f F1 + 1, ?_⟩
                      rw [List.cons_append,
                        execSeq_for_true post body (rest ++ l2)
                          (evalExpr_mono f (max f F1) st.env c (v + 1, efs) (Nat.le_max_left f F1) he)]
                      simp only [execSeq_mono f (max f F1) body _ (stb, LoopExit.normalE) (Nat.le_max_left f F1) hb]
                      simp only [execSeq_mono f (max f F1) post stb (st2, LoopExit.normalE) (Nat.le_max_left f F1) hp]
                      rw [List.cons_append] at hF1
                      exact execSeq_mono F1 (max f F1) _ _ r (Nat.le_max_right f F1) hF1
                    | breakE => simp only [hp] at h; exact Option.noConfusion h
                    | continueE => simp only [hp] at h; exact Option.noConfusion h
                    | leaveE => simp only [hp] at h; exact Option.noConfusion h
                | continueE =>
                  simp only [hb] at h
                  cases hp : execSeq f post stb with
                  | none => simp only [hp] at h; exact Option.noConfusion h
                  | some q2 =>
                    rcases q2 with ⟨st2, exq⟩
                    cases exq with
                    | normalE =>
                      simp only [hp] at h
                      obtain ⟨F1, hF1⟩ := ih (YulStmt.forLoop [] c post body :: rest) _ st1 h f2 l2 r h2
                      refine ⟨max f F1 + 1, ?_⟩
                      rw [List.cons_append,
                        execSeq_for_true post body (rest ++ l2)
                          (evalExpr_mono f (max f F1) st.env c (v + 1, efs) (Nat.le_max_left f F1) he)]
                      simp only [execSeq_mono f (max f F1) body _ (stb, LoopExit.continueE) (Nat.le_max_left f F1) hb]
                      simp only [execSeq_mono f (max f F1) post stb (st2, LoopExit.normalE) (Nat.le_max_left f F1) hp]
                      rw [List.cons_append] at hF1
                      exact execSeq_mono F1 (max f F1) _ _ r (Nat.le_max_right f F1) hF1
                    | breakE => simp only [hp] at h; exact Option.noConfusion h
                    | continueE => simp only [hp] at h; exact Option.noConfusion h
                    | leaveE => simp only [hp] at h; exact Option.noConfusion h
      | breakStmt => rw [execSeq_break rest] at h; simp at h
      | continueStmt => rw [execSeq_continue rest] at h; simp at h
      | leaveStmt => rw [execSeq_leave rest] at h; simp at h

/-- Invert one `Except` bind of a successful computation. -/
theorem bindOk {α β : Type} {m : Except GenError α} {f : α → Except GenError β}
    {r : β} (h : (m >>= f) = .ok r) : ∃ a, m = .ok a ∧ f a = .ok r := by
  cases m with
  | error e => rw [errBind] at h; exact Except.noConfusion h
  | ok a => exact ⟨a, rfl, h⟩

/-- C4: loop condition gating.  (1) Lowering a do-while emits a one-shot
"first run" flag initialised to `1`; the loop body first tests
`iszero(flag)` so the condition block (the lowered condition followed by
`if iszero(cond) { break }`) is skipped when the flag is still set, then
clears the flag, then runs the lowered body.  (2) Lowering a non-do-while
loop instead places the condition block at the top of the body, so the
condition is tested on every iteration.  (3) Semantically, the emitted
do-while code runs the body exactly once when the condition is false at its
first (post-body) check: the final state is the post-body state extended
only by the condition evaluation, terminating normally.  (4) Semantically,
the emitted non-do-while code with a false condition breaks out before the
body: the final state carries only the condition-code effects. -/
theorem c4_loop_condition_gating
    (lowS : Stmt → GenState → Except GenError GenState)
    (lowE : Expr → Bool → GenState → Except GenError GenState) :
    (∀ c b s sF, lowerStmtStep lowS lowE (.whileS c b true) s = .ok sF →
      ∃ sc sb,
        lowE c false { (newYulVariable s).2 with code := [] } = .ok sc ∧
        lowS b { sc with code := [
            .ifStmt (.call "iszero" [.yident (newYulVariable s).1])
              (sc.code ++ [.ifStmt (.call "iszero"
                [expressionAsType (exprVar c) .boolTy]) [.breakStmt]]),
            .assignVar [(newYulVariable s).1] (.lit 0)] } = .ok sb ∧
        sF = { sb with code := s.code ++ [.letVar [(newYulVariable s).1] (.lit 1)]
                ++ [.forLoop [] (.lit 1) [] sb.code] })
    ∧
    (∀ c b s sF, lowerStmtStep lowS lowE (.whileS c b false) s = .ok sF →
      ∃ sc sb,
        lowE c false { s with code := [] } = .ok sc ∧
        lowS b { sc with code := sc.code ++ [.ifStmt (.call "iszero"
            [expressionAsType (exprVar c) .boolTy]) [.breakStmt]] } = .ok sb ∧
        sF = { sb with code := s.code ++ [.forLoop [] (.lit 1) [] sb.code] })
    ∧
    (∀ (fr : String) (cv : YulExpr) (dc db : List YulStmt) (st0 : EState)
        (fb fc fe : Nat) (estB estC : EState) (effs : List (String × List Nat)),
      execSeq fb db ⟨bindNames [fr] 0 (bindNames [fr] 1 st0.env), st0.trace⟩
          = some (estB, .normalE) →
      envLookup estB.env fr = some 0 →
      execSeq fc dc estB = some (estC, .normalE) →
      evalExpr fe estC.env cv = some (0, effs) →
      ∃ F, execSeq F
          [.letVar [fr] (.lit 1),
           .forLoop [] (.lit 1) []
             (.ifStmt (.call "iszero" [.yident fr])
                 (dc ++ [.ifStmt (.call "iszero" [cv]) [.breakStmt]])
               :: .assignVar [fr] (.lit 0) :: db)]
          st0 = some (⟨estC.env, estC.trace ++ effs⟩, .normalE))
    ∧
    (∀ (cv : YulExpr) (dc db : List YulStmt) (st0 : EState)
        (fc fe : Nat) (estC : EState) (effs : List (String × List Nat)),
      execSeq fc dc st0 = some (estC, .normalE) →
      evalExpr fe estC.env cv = some (0, effs) →
      ∃ F, execSeq F
          [.forLoop [] (.lit 1) []
            (dc ++ .ifStmt (.call "iszero" [cv]) [.breakStmt] :: db)]
          st0 = some (⟨estC.env, estC.trace ++ effs⟩, .normalE)) := by
  refine ⟨?_, ?_, ?_, ?_⟩
  · intro c b s sF h
    simp only [lowerStmtStep, generateLoop, newYulVariable, Option.isSome,
      solAssertB, captured, okBind, errBind, pureIsOk, exBindAssoc, if_true, emit,
      List.nil_append, List.singleton_append, List.cons_append, List.append_nil] at h
    obtain ⟨sc, hc, h⟩ := bindOk h
    obtain ⟨sb, hb2, h⟩ := bindOk h
    exact ⟨sc, sb, hc, hb2, (Except.ok.inj h).symm⟩
  · intro c b s sF h
    simp only [lowerStmtStep, generateLoop, newYulVariable, Option.isSome,
      solAssertB, captured, okBind, errBind, pureIsOk, exBindAssoc, if_true, emit,
      List.nil_append, List.singleton_append, List.cons_append, List.append_nil,
      Bool.false_eq_true, if_false] at h
    obtain ⟨sc, hc, h⟩ := bindOk h
    obtain ⟨sb, hb2, h⟩ := bindOk h
    exact ⟨sc, sb, hc, hb2, (Except.ok.inj h).symm⟩
  · intro fr cv dc db st0 fb fc fe estB estC effs hb hfr hc he
    have hlk1 : envLookup (bindNames [fr] 1 st0.env) fr = some 1 := by
      simp [bindNames, envLookup]
    have hcondA : ∀ X : Nat, evalExpr (X + 1) (bindNames [fr] 1 st0.env)
        (.call "iszero" [.yident fr]) = some (0, []) := by
      intro X
      simp [evalExpr, evalArgsAux, hlk1, applyPure]
    have hcondB : ∀ X : Nat, evalExpr (X + 1) estB.env
        (.call "iszero" [.yident fr]) = some (1, []) := by
      intro X
      simp [evalExpr, evalArgsAux, hfr, applyPure]
    have hcondC : evalExpr (fe + 1) estC.env (.call "iszero" [cv])
        = some (1, effs) := by
      simp [evalExpr, evalArgsAux, he, applyPure]
    have hbody1 : execSeq (fb + 2)
        (.ifStmt (.call "iszero" [.yident fr])
            (dc ++ [.ifStmt (.call "iszero" [cv]) [.breakStmt]])
          :: .assignVar [fr] (.lit 0) :: db)
        ⟨bindNames [fr] 1 st0.env, st0.trace⟩ = some (estB, .normalE) := by
      rw [execSeq_if_false _ _ (hcondA fb)]
      rw [execSeq_assignVar [fr] db (evalExpr_lit fb _ 0)]
      simp only [List.append_nil]
      exact hb
    have htail : execSeq (fe + 2) [.ifStmt (.call "iszero" [cv]) [.breakStmt]] estC
        = some (⟨estC.env, estC.trace ++ effs⟩, .breakE) := by
      rw [execSeq_if_true [.breakStmt] [] hcondC]
      simp only [execSeq_break]
    obtain ⟨Fc, hFc⟩ := execSeq_append fc dc estB estC hc (fe + 2)
      [.ifStmt (.call "iszero" [cv]) [.breakStmt]]
      (⟨estC.env, estC.trace ++ effs⟩, .breakE) htail
    have hFc1 : execSeq (Fc + 1) (dc ++ [.ifStmt (.call "iszero" [cv]) [.breakStmt]])
        ⟨estB.env, estB.trace⟩ = some (⟨estC.env, estC.trace ++ effs⟩, .breakE) :=
      execSeq_mono Fc (Fc + 1) _ _ _ (Nat.le_succ Fc) hFc
    have hbody2 : execSeq (Fc + 2)
        (.ifStmt (.call "iszero" [.yident fr])
            (dc ++ [.ifStmt (.call "iszero" [cv]) [.breakStmt]])
          :: .assignVar [fr] (.lit 0) :: db)
        estB = some (⟨estC.env, estC.trace ++ effs⟩, .breakE) := by
      rw [execSeq_if_true _ _ (hcondB Fc)]
      simp only [List.append_nil, hFc1]
    refine ⟨max (fb + 2) (Fc + 2) + 3, ?_⟩
    rw [execSeq_letVar [fr] _ (evalExpr_lit (max (fb + 2) (Fc + 2) + 2) _ 1)]
    simp only [List.append_nil]
    rw [execSeq_for_true [] _ [] (evalExpr_lit (max (fb + 2) (Fc + 2) + 1) _ 1)]
    simp only [List.append_nil]
    have hbody1m := execSeq_mono (fb + 2) (max (fb + 2) (Fc + 2) + 1) _ _ _
      (by omega) hbody1
    simp only [hbody1m, execSeq_nil]
    rw [execSeq_for_true [] _ [] (evalExpr_lit (max (fb + 2) (Fc + 2)) _ 1)]
    simp only [List.append_nil]
    have hbody2m : execSeq (max (fb + 2) (Fc + 2))
        (.ifStmt (.call "iszero" [.yident fr])
            (dc ++ [.ifStmt (.call "iszero" [cv]) [.breakStmt]])
          :: .assignVar [fr] (.lit 0) :: db)
        ⟨estB.env, estB.trace⟩ = some (⟨estC.env, estC.trace ++ effs⟩, .breakE) :=
      execSeq_mono (Fc + 2) (max (fb + 2) (Fc + 2)) _ _ _ (by omega) hbody2
    simp only [hbody2m, execSeq_nil]
  · intro cv dc db st0 fc fe estC effs hc he
    have hcondC : evalExpr (fe + 1) estC.env (.call "iszero" [cv])
        = some (1, effs) := by
      simp [evalExpr, evalArgsAux, he, applyPure]
    have htail : execSeq (fe + 2)
        (.ifStmt (.call "iszero" [cv]) [.breakStmt] :: db) estC
        = some (⟨estC.env, estC.trace ++ effs⟩, .breakE) := by
      rw [execSeq_if_true [.breakStmt] db hcondC]
      simp only [execSeq_break]
    obtain ⟨Fd, hFd⟩ := execSeq_append fc dc st0 estC hc (fe + 2)
      (.ifStmt (.call "iszero" [cv]) [.breakStmt] :: db)
      (⟨estC.env, estC.trace ++ effs⟩, .breakE) htail
    have hFd1 : execSeq (Fd + 1)
        (dc ++ .ifStmt (.call "iszero" [cv]) [.breakStmt] :: db)
        ⟨st0.env, st0.trace⟩ = some (⟨estC.env, estC.trace ++ effs⟩, .breakE) :=
      execSeq_mono Fd (Fd + 1) _ _ _ (Nat.le_succ Fd) hFd
    refine ⟨Fd + 2, ?_⟩
    rw [execSeq_for_true [] _ [] (evalExpr_lit (Fd + 1) _ 1)]
    simp only [List.append_nil, hFd1, execSeq_nil]

/-- C4 witness: the do-while `do { x++; } while (b)` lowers successfully and
decomposes as stated; the emitted do-while shape with a false condition
(`b = 0`) runs its body (`x := 5`) exactly once; the plain while shape with
a false condition never runs its body. -/
theorem c4_witness :
    (∃ sc sb,
        lowerExpr 7 bIdent false { (newYulVariable genState0).2 with code := [] }
          = .ok sc ∧
        lowerStmt 7 (.exprStmtS incW5) { sc with code := [
            .ifStmt (.call "iszero" [.yident (newYulVariable genState0).1])
              (sc.code ++ [.ifStmt (.call "iszero"
                [expressionAsType (exprVar bIdent) .boolTy]) [.breakStmt]]),
            .assignVar [(newYulVariable genState0).1] (.lit 0)] } = .ok sb ∧
        okState runW4 = { sb with code := genState0.code
            ++ [.letVar [(newYulVariable genState0).1] (.lit 1)]
            ++ [.forLoop [] (.lit 1) [] sb.code] })
    ∧
    (∃ sc sb,
        lowerExpr 7 bIdent false { genState0 with code := [] } = .ok sc ∧
        lowerStmt 7 (.exprStmtS incW5) { sc with code := sc.code
            ++ [.ifStmt (.call "iszero"
              [expressionAsType (exprVar bIdent) .boolTy]) [.breakStmt]] } = .ok sb ∧
        okState runW4b = { sb with code := genState0.code
            ++ [.forLoop [] (.lit 1) [] sb.code] })
    ∧
    (∃ F, execSeq F
        [.letVar ["t"] (.lit 1),
         .forLoop [] (.lit 1) []
           (.ifStmt (.call "iszero" [.yident "t"])
               ([] ++ [.ifStmt (.call "iszero" [.yident "b"]) [.breakStmt]])
             :: .assignVar ["t"] (.lit 0) :: [.assignVar ["x"] (.lit 5)])]
        ⟨[("b", 0), ("x", 0)], []⟩
      = some (⟨[("x", 5), ("t", 0), ("t", 1), ("b", 0), ("x", 0)], []⟩, .normalE))
    ∧
    (∃ F, execSeq F
        [.forLoop [] (.lit 1) []
          ([] ++ .ifStmt (.call "iszero" [.yident "b"]) [.breakStmt]
            :: [.assignVar ["x"] (.lit 5)])]
        ⟨[("b", 0), ("x", 0)], []⟩
      = some (⟨[("b", 0), ("x", 0)], []⟩, .normalE)) :=
  ⟨(c4_loop_condition_gating (lowerStmt 7) (lowerExpr 7)).1 bIdent
      (.exprStmtS incW5) genState0 (okState runW4) (by rfl),
   (c4_loop_condition_gating (lowerStmt 7) (lowerExpr 7)).2.1 bIdent
      (.exprStmtS incW5) genState0 (okState runW4b) (by rfl),
   (c4_loop_condition_gating (lowerStmt 7) (lowerExpr 7)).2.2.1 "t" (.yident "b")
      [] [.assignVar ["x"] (.lit 5)] ⟨[("b", 0), ("x", 0)], []⟩ 2 0 0
      ⟨[("x", 5), ("t", 0), ("t", 1), ("b", 0), ("x", 0)], []⟩
      ⟨[("x", 5), ("t", 0), ("t", 1), ("b", 0), ("x", 0)], []⟩ []
      (by rfl) (by rfl) (by rfl) (by rfl),
   (c4_loop_condition_gating (lowerStmt 7) (lowerExpr 7)).2.2.2 (.yident "b")
      [] [.assignVar ["x"] (.lit 5)] ⟨[("b", 0), ("x", 0)], []⟩ 0 0
      ⟨[("b", 0), ("x", 0)], []⟩ []
      (by rfl) (by rfl)⟩

end IRGen
